import Mathlib

/-!
SUCHAI flight software: linear algebra and ESKF core of `src/system/utils.c`.

A shallow embedding of the vector, matrix, quaternion and error-state Kalman
filter routines of `utils.c`, followed by theorems about them.

Conventions of the embedding.

* A C `double` is an element of a linearly ordered field `K` with a floor
  function (the rationals, the reals): arithmetic is exact.
* A C object made of doubles (`vector3_t`, `quaternion_t`, `matrix3_t`,
  `double P[6][6]`, a `double *`) is a `Buf K`, the memory it occupies indexed
  by element; `m[i][j]` of a `double m[r][c]` is element `c*i + j`.
* A function that writes through a pointer takes the prior content of the
  pointee and returns its content after the call.
* `sqrt`, `cos` and `sin` of the C mathematical library are the three fields of
  a `Libm K`.
* Where the rounding of the C `double` decides a property, the routines are
  given a second time on `F64`, the values of the IEEE 754 binary64 format, in
  the namespace `IEEE`.
-/

namespace SUCHAI

/-- The memory behind a `double *`, indexed by element. -/
abbrev Buf (K : Type) := Nat → K

/-- The assignment `b[i] = x`. -/
def store {K : Type} (b : Buf K) (i : Nat) (x : K) : Buf K :=
  fun k => if k = i then x else b k

/-- Runs `body lo`, `body (lo+1)`, ..., `body (lo+n-1)` in this order. -/
def iterate {σ : Type} (lo : Nat) : Nat → (Nat → σ → σ) → σ → σ
  | 0, _, s => s
  | n + 1, body, s => body (lo + n) (iterate lo n body s)

/-- The loop `for (int i = lo; i < hi; ++i) body`. -/
def forLoop {σ : Type} (lo hi : Nat) (body : Nat → σ → σ) (s : σ) : σ :=
  iterate lo (hi - lo) body s

/-- The functions of `math.h` the code calls. -/
structure Libm (K : Type) where
  sqrt : K → K
  cos : K → K
  sin : K → K

/-- The ways an execution leaves the exact-arithmetic model. -/
inductive Fault where
  /-- An `assert` failed: `abort()` ends the program, nothing returns. -/
  | assertion
  /-- A division by zero was evaluated: IEEE arithmetic goes on with an
  infinity or a NaN, which no element of `K` stands for. -/
  | divByZero
  /-- Undefined behaviour of C (a `double` converted to an `int` that cannot
  hold it, `abs(INT_MIN)`). -/
  | undefined
  deriving DecidableEq, Repr

section Code

variable {K : Type} [LinearOrderedField K] [FloorRing K]

/-- Line 29: `const double std_rw_w = 0.001;`. -/
def std_rw_w : K := 0.001

/-- Line 30: `const double std_rn_w = 0.001;`. -/
def std_rn_w : K := 0.001

/-- Line 31: `const double std_rn_mag = 0.001;`. -/
def std_rn_mag : K := 0.001

/-- Lines 179-186. -/
def vec_norm (L : Libm K) (vec : Buf K) : K :=
  L.sqrt (forLoop 0 3 (fun i res => res + vec i ^ 2) 0)

/-- Lines 188-201. `res = none` is the call with `res == NULL`. Returns the
`int` result and the object written to (`*res` when given, `*vec` otherwise). -/
def vec_normalize (L : Libm K) (vec : Buf K) (res : Option (Buf K)) : Int × Buf K :=
  let n := vec_norm L vec
  if n = 0 then (0, res.getD vec)
  else
    let n := 1 / n
    match res with
    | some r => (1, forLoop 0 3 (fun i r => store r i (vec i * n)) r)
    | none => (1, forLoop 0 3 (fun i v => store v i (v i * n)) vec)

/-- Lines 203-210. -/
def vec_inner_product (lhs rhs : Buf K) : K :=
  forLoop 1 3 (fun i res => res + lhs i * rhs i) 0

/-- Lines 212-217. -/
def vec_outer_product (lhs rhs res : Buf K) : Buf K :=
  let res := store res 0 (lhs 1 * rhs 2 - lhs 2 * rhs 1)
  let res := store res 1 (lhs 2 * rhs 0 - lhs 0 * rhs 2)
  let res := store res 2 (lhs 0 * rhs 1 - lhs 1 * rhs 0)
  res

/-- Lines 225-230. -/
def vec_sum (lhs rhs res : Buf K) : Buf K :=
  forLoop 0 3 (fun i res => store res i (lhs i + rhs i)) res

/-- Lines 232-240. Returns the object written to (`*res` when given, `*vec`
otherwise). -/
def vec_cons_mult (a : K) (vec : Buf K) (res : Option (Buf K)) : Buf K :=
  match res with
  | some r => forLoop 0 3 (fun i r => store r i (vec i * a)) r
  | none => forLoop 0 3 (fun i v => store v i (v i * a)) vec

/-- Lines 242-252. -/
def mat_skew (vec res : Buf K) : Buf K :=
  let res := store res (3 * 1 + 0) (vec 2)
  let res := store res (3 * 2 + 0) (-1 * vec 1)
  let res := store res (3 * 0 + 1) (-1 * vec 2)
  let res := store res (3 * 0 + 2) (vec 1)
  let res := store res (3 * 2 + 1) (vec 0)
  let res := store res (3 * 1 + 2) (-1 * vec 0)
  res

/-- Lines 289-301. -/
def _mat_vec_mult (mat vec res : Buf K) (n_x n_y : Nat) : Buf K :=
  forLoop 0 n_x (fun i res =>
    let res := store res i 0
    forLoop 0 n_y (fun j res =>
      let mati := i * n_y + j
      store res i (res i + mat mati * vec j)) res) res

/-- Lines 303-306. -/
def mat_vec_mult (mat vec res : Buf K) : Buf K :=
  _mat_vec_mult mat vec res 3 3

/-- Lines 279-287. Returns the buffer written to (`res` when given, `mat`
otherwise). -/
def _mat_cons_mult (a : K) (mat : Buf K) (res : Option (Buf K)) (n_x n_y : Nat) : Buf K :=
  match res with
  | some r => forLoop 0 (n_x * n_y) (fun i r => store r i (mat i * a)) r
  | none => forLoop 0 (n_x * n_y) (fun i m => store m i (m i * a)) mat

/-- Lines 308-322. `res` overlaps neither `lhs` nor `rhs` at any call site. -/
def _mat_mat_mult (lhs rhs res : Buf K) (n_x n_y n_z : Nat) : Buf K :=
  forLoop 0 n_x (fun i res =>
    forLoop 0 n_z (fun k res =>
      let ires := i * n_z + k
      let res := store res ires 0
      forLoop 0 n_y (fun j res =>
        let il := i * n_y + j
        let ir := j * n_z + k
        store res ires (res ires + lhs il * rhs ir)) res) res) res

/-- Lines 324-327. -/
def mat_mat_mult (lhs rhs res : Buf K) : Buf K :=
  _mat_mat_mult lhs rhs res 3 3 3

/-- Lines 329-334. -/
def _mat_mat_sum (lhs rhs res : Buf K) (n_x n_y : Nat) : Buf K :=
  forLoop 0 (n_x * n_y) (fun i res => store res i (lhs i + rhs i)) res

/-- Lines 336-339. -/
def mat_sum (lhs rhs res : Buf K) : Buf K :=
  _mat_mat_sum lhs rhs res 3 3

/-- Lines 341-351. `res` does not overlap `mat` at any call site. -/
def _mat_transpose (mat res : Buf K) (n_x n_y : Nat) : Buf K :=
  forLoop 0 n_x (fun i res =>
    forLoop 0 n_y (fun j res =>
      let index := n_y * i + j
      let index_t := n_x * j + i
      store res index_t (mat index)) res) res

/-- Lines 353-363. The parameter `resy` is not used by the body. -/
def _mat_copy (mat res : Buf K) (matx maty resx _resy pi pj : Nat) : Buf K :=
  forLoop 0 matx (fun i res =>
    forLoop 0 maty (fun j res =>
      let i_mat := matx * i + j
      let i_res := resx * (i + pi) + j + pj
      store res i_res (mat i_mat)) res) res

/-- Lines 365-368. -/
def mat_transpose (mat res : Buf K) : Buf K :=
  _mat_transpose mat res 3 3

/-- Lines 370-382. -/
def _mat_set_diag (m : Buf K) (val : K) (n_x n_y : Nat) : Buf K :=
  forLoop 0 n_x (fun i m =>
    forLoop 0 n_y (fun j m =>
      let mi := i * n_y + j
      if i = j then store m mi val else store m mi 0) m) m

/-- Lines 384-389. -/
def mat_set_diag (m : Buf K) (a b c : K) : Buf K :=
  let m := store m (3 * 0 + 0) a
  let m := store m (3 * 0 + 1) 0
  let m := store m (3 * 0 + 2) 0
  let m := store m (3 * 1 + 0) 0
  let m := store m (3 * 1 + 1) b
  let m := store m (3 * 1 + 2) 0
  let m := store m (3 * 2 + 0) 0
  let m := store m (3 * 2 + 1) 0
  let m := store m (3 * 2 + 2) c
  m

/-- `INT_MAX` of `limits.h` for a 32-bit `int`. -/
def INT_MAX : Int := 2147483647

/-- `INT_MIN` of `limits.h` for a 32-bit `int`. -/
def INT_MIN : Int := -2147483648

/-- The conversion of a `double` argument to an `int` parameter: the fractional
part is discarded (truncation toward zero); undefined when the integral part
is not an `int`. -/
def double_to_int (x : K) : Except Fault Int :=
  let t : Int := if 0 ≤ x then Int.floor x else Int.ceil x
  if INT_MIN ≤ t ∧ t ≤ INT_MAX then .ok t else .error Fault.undefined

/-- The function `int abs(int)` of `stdlib.h`. -/
def stdlib.abs (n : Int) : Except Fault Int :=
  if n = INT_MIN then .error Fault.undefined else .ok (if n < 0 then -n else n)

/-- Lines 257-270 of `mat_inverse`: the value of the local `detmat`. -/
def mat_inverse_detmat (mat : Buf K) : K :=
  let a := mat (3 * 0 + 0)
  let b := mat (3 * 0 + 1)
  let c := mat (3 * 0 + 2)
  let d := mat (3 * 1 + 0)
  let e := mat (3 * 1 + 1)
  let f := mat (3 * 1 + 2)
  let g := mat (3 * 2 + 0)
  let h := mat (3 * 2 + 1)
  let i := mat (3 * 2 + 2)
  let A := e * i - f * h
  let B := -1 * (d * i - f * g)
  let C := d * h - e * g
  a * A + b * B + c * C

/-- Lines 254-277. The argument of `abs` on line 272 is the `double detmat`, so
it is converted to `int` first; the `int` result is converted back to `double`
for the comparison with `1E-25`. -/
def mat_inverse (mat res : Buf K) : Except Fault (Buf K) :=
  let a := mat (3 * 0 + 0)
  let b := mat (3 * 0 + 1)
  let c := mat (3 * 0 + 2)
  let d := mat (3 * 1 + 0)
  let e := mat (3 * 1 + 1)
  let f := mat (3 * 1 + 2)
  let g := mat (3 * 2 + 0)
  let h := mat (3 * 2 + 1)
  let i := mat (3 * 2 + 2)
  let A := e * i - f * h
  let B := -1 * (d * i - f * g)
  let C := d * h - e * g
  let D := -1 * (b * i - c * h)
  let E := a * i - c * g
  let F := -1 * (a * h - b * g)
  let G := b * f - c * e
  let H := -1 * (a * f - c * d)
  let I := a * e - b * d
  let detmat := a * A + b * B + c * C
  match double_to_int detmat with
  | .error flt => .error flt
  | .ok n =>
    match stdlib.abs n with
    | .error flt => .error flt
    | .ok m =>
      if ((m : Int) : K) ≥ 1E-25 then
        let res := store res (3 * 0 + 0) (A / detmat)
        let res := store res (3 * 0 + 1) (D / detmat)
        let res := store res (3 * 0 + 2) (G / detmat)
        let res := store res (3 * 1 + 0) (B / detmat)
        let res := store res (3 * 1 + 1) (E / detmat)
        let res := store res (3 * 1 + 2) (H / detmat)
        let res := store res (3 * 2 + 0) (C / detmat)
        let res := store res (3 * 2 + 1) (F / detmat)
        let res := store res (3 * 2 + 2) (I / detmat)
        .ok res
      else .error Fault.assertion

/-- Lines 274-276 of `mat_inverse`: `*res` after the nine assignments. -/
def mat_inverse_value (mat res : Buf K) : Buf K :=
  let a := mat (3 * 0 + 0)
  let b := mat (3 * 0 + 1)
  let c := mat (3 * 0 + 2)
  let d := mat (3 * 1 + 0)
  let e := mat (3 * 1 + 1)
  let f := mat (3 * 1 + 2)
  let g := mat (3 * 2 + 0)
  let h := mat (3 * 2 + 1)
  let i := mat (3 * 2 + 2)
  let A := e * i - f * h
  let B := -1 * (d * i - f * g)
  let C := d * h - e * g
  let D := -1 * (b * i - c * h)
  let E := a * i - c * g
  let F := -1 * (a * h - b * g)
  let G := b * f - c * e
  let H := -1 * (a * f - c * d)
  let I := a * e - b * d
  let detmat := a * A + b * B + c * C
  let res := store res (3 * 0 + 0) (A / detmat)
  let res := store res (3 * 0 + 1) (D / detmat)
  let res := store res (3 * 0 + 2) (G / detmat)
  let res := store res (3 * 1 + 0) (B / detmat)
  let res := store res (3 * 1 + 1) (E / detmat)
  let res := store res (3 * 1 + 2) (H / detmat)
  let res := store res (3 * 2 + 0) (C / detmat)
  let res := store res (3 * 2 + 1) (F / detmat)
  let res := store res (3 * 2 + 2) (I / detmat)
  res

/-- Lines 91-99. -/
def axis_rotation_to_quat (L : Libm K) (axis : Buf K) (rot : K) (res : Buf K) : Buf K :=
  let rot := rot * 0.5
  let res := store res 3 (L.cos rot)
  forLoop 0 3 (fun i res => store res i (axis i * L.sin rot)) res

/-- A local object that the code writes in full before it reads it: the
content it starts from is never observed. -/
def fresh : Buf K := fun _ => 0

/-- Lines 83-89. The quotient `1.0 / rot` is a division by zero when the norm
is zero. -/
def vec_to_quat (L : Libm K) (axis res : Buf K) : Except Fault (Buf K) :=
  let rot := vec_norm L axis
  if rot = 0 then .error Fault.divByZero
  else
    let u := vec_cons_mult (1 / rot) axis (some fresh)
    .ok (axis_rotation_to_quat L u rot res)

/-- Lines 108-113. `res` is neither `lhs` nor `rhs` at any call site. -/
def quat_mult (lhs rhs res : Buf K) : Buf K :=
  let res := store res 0 (lhs 3 * rhs 0 - lhs 2 * rhs 1 + lhs 1 * rhs 2 + lhs 0 * rhs 3)
  let res := store res 1 (lhs 2 * rhs 0 + lhs 3 * rhs 1 - lhs 0 * rhs 2 + lhs 1 * rhs 3)
  let res := store res 2 (-lhs 1 * rhs 0 + lhs 0 * rhs 1 + lhs 3 * rhs 2 + lhs 2 * rhs 3)
  let res := store res 3 (-lhs 0 * rhs 0 - lhs 1 * rhs 1 - lhs 2 * rhs 2 + lhs 3 * rhs 3)
  res

/-- Lines 159-177. -/
def quat_to_dcm (q res : Buf K) : Buf K :=
  let q1 := q 0
  let q2 := q 1
  let q3 := q 2
  let q4 := q 3
  let res := store res (3 * 0 + 0) (q1 ^ 2 - q2 ^ 2 - q3 ^ 2 + q4 ^ 2)
  let res := store res (3 * 0 + 1) (2 * (q1 * q2 + q3 * q4))
  let res := store res (3 * 0 + 2) (2 * (q1 * q3 - q2 * q4))
  let res := store res (3 * 1 + 0) (2 * (q1 * q2 - q3 * q4))
  let res := store res (3 * 1 + 1) (-1 * q1 ^ 2 + q2 ^ 2 - q3 ^ 2 + q4 ^ 2)
  let res := store res (3 * 1 + 2) (2 * (q2 * q3 + q1 * q4))
  let res := store res (3 * 2 + 0) (2 * (q1 * q3 + q2 * q4))
  let res := store res (3 * 2 + 1) (2 * (q2 * q3 - q1 * q4))
  let res := store res (3 * 2 + 2) (-1 * q1 ^ 2 - q2 ^ 2 + q3 ^ 2 + q4 ^ 2)
  res

/-- Lines 392-399. -/
def eskf_integrate (L : Libm K) (q omega : Buf K) (dt : K) (res : Buf K) :
    Except Fault (Buf K) :=
  let omega_dt := vec_cons_mult dt omega (some fresh)
  match vec_to_quat L omega_dt fresh with
  | .error flt => .error flt
  | .ok q_omega_dt => .ok (quat_mult q q_omega_dt res)

/-- Lines 403-423 of `eskf_compute_error`: the matrix `F` once its four blocks
have been copied, for the increment quaternion `dq_omegadt`. -/
def eskf_compute_error_F (dq_omegadt : Buf K) (dt : K) : Buf K :=
  let F : Buf K := fresh
  let rwb := quat_to_dcm dq_omegadt fresh
  let temp := mat_transpose rwb fresh
  let F := _mat_copy temp F 3 3 6 6 0 0
  let diag_val := -1 * dt
  let temp := mat_set_diag temp diag_val diag_val diag_val
  let F := _mat_copy temp F 3 3 6 6 0 3
  let temp := mat_set_diag temp 0 0 0
  let F := _mat_copy temp F 3 3 6 6 3 0
  let temp := mat_set_diag temp 1 1 1
  let F := _mat_copy temp F 3 3 6 6 3 3
  F

/-- Lines 425-441 of `eskf_compute_error`: the loop that fills `Q`. The local
`temp` is written in full by `mat_set_diag` before each copy. -/
def eskf_compute_error_Q (dt : K) (Q : Buf K) : Buf K :=
  (forLoop 0 2 (fun i s =>
    forLoop 0 2 (fun j (s : Buf K × Buf K) =>
      if i = 0 ∧ j = 0 then
        let val := std_rn_w ^ 2 * dt ^ 2
        let temp := mat_set_diag s.1 val val val
        (temp, _mat_copy temp s.2 3 3 6 6 0 0)
      else if i = 1 ∧ j = 1 then
        let val := std_rw_w ^ 2 * dt
        let temp := mat_set_diag s.1 val val val
        (temp, _mat_copy temp s.2 3 3 6 6 3 3)
      else
        let temp := mat_set_diag s.1 0 0 0
        (temp, _mat_copy temp s.2 3 3 6 6 (i * 3) (j * 3))) s) (fresh, Q)).2

/-- Lines 401-451. Returns `P` and `Q` after the call. -/
def eskf_compute_error (L : Libm K) (omega : Buf K) (dt : K) (P Q : Buf K) :
    Except Fault (Buf K × Buf K) :=
  let omega_dt := vec_cons_mult dt omega (some fresh)
  match vec_to_quat L omega_dt fresh with
  | .error flt => .error flt
  | .ok dq_omegadt =>
    let F := eskf_compute_error_F dq_omegadt dt
    let Q := eskf_compute_error_Q dt Q
    let Ft := _mat_transpose F fresh 6 6
    let FP := _mat_mat_mult F P fresh 6 6 6
    let FPFt := _mat_mat_mult FP Ft fresh 6 6 6
    let P := _mat_mat_sum FPFt Q P 6 6
    .ok (P, Q)

/-- Lines 456-460 of `eskf_update_mag`: the predicted field `mag_b`. The
result of `vec_normalize` is discarded by the caller. -/
def eskf_update_mag_mag_b (L : Libm K) (mag_i q : Buf K) : Buf K :=
  let mag_i := (vec_normalize L mag_i none).2
  let rwb := quat_to_dcm q fresh
  mat_vec_mult rwb mag_i fresh

/-- Lines 461-467 of `eskf_update_mag`: the array `H`. The locals `temp` and
`H` are declared without an initializer and read or kept in part, so the
content they start from is an argument. -/
def eskf_update_mag_H (mag_b temp H : Buf K) : Buf K :=
  let temp := mat_skew mag_b temp
  let H := _mat_copy temp H 3 3 3 6 0 0
  let temp := mat_set_diag temp 0 0 0
  let H := _mat_copy temp H 3 3 3 6 0 3
  H

/-- Lines 470-473 of `eskf_update_mag`: the array `PHt`. -/
def eskf_update_mag_PHt (P H : Buf K) : Buf K :=
  let Ht := _mat_transpose H fresh 3 6
  _mat_mat_mult P Ht fresh 6 6 3

/-- Lines 476-477 of `eskf_update_mag`: `*R` after `mat_set_diag`. -/
def eskf_update_mag_R (R : Buf K) : Buf K :=
  let rval := (std_rn_mag : K) ^ 2
  mat_set_diag R rval rval rval

/-- Lines 474-478 of `eskf_update_mag`: the matrix `S`. -/
def eskf_update_mag_S (P H R : Buf K) : Buf K :=
  let PHt := eskf_update_mag_PHt P H
  let S1 := _mat_mat_mult H PHt fresh 3 6 3
  let R := eskf_update_mag_R R
  mat_sum S1 R fresh

/-- Lines 479-481 of `eskf_update_mag`: the gain `K`. -/
def eskf_update_mag_K (P H R : Buf K) : Except Fault (Buf K) :=
  match mat_inverse (eskf_update_mag_S P H R) fresh with
  | .error flt => .error flt
  | .ok SI => .ok (_mat_mat_mult (eskf_update_mag_PHt P H) SI fresh 6 3 3)

/-- Lines 483-488 of `eskf_update_mag`: the error state `dx`. -/
def eskf_update_mag_dx (gain mag_sensor mag_b : Buf K) : Buf K :=
  let nmag_b := vec_cons_mult (-1) mag_b (some fresh)
  let y := vec_sum mag_sensor nmag_b fresh
  _mat_mat_mult gain y fresh 6 3 1

/-- Lines 491-497 of `eskf_update_mag`: the local array `P1`. -/
def eskf_update_mag_P1 (gain H P : Buf K) : Buf K :=
  let I6 := _mat_set_diag fresh 1 6 6
  let KH := _mat_mat_mult gain H fresh 6 3 6
  let KH := _mat_cons_mult (-1) KH none 6 6
  let IKH := _mat_mat_sum I6 KH fresh 6 6
  _mat_mat_mult IKH P fresh 6 6 6

/-- Lines 499-516 of `eskf_update_mag`: `*q` and `*wb` after the injection. -/
def eskf_update_mag_inject (L : Libm K) (dx q wb : Buf K) : Except Fault (Buf K × Buf K) :=
  let dtheta := store (store (store fresh 0 (dx 0)) 1 (dx 1)) 2 (dx 2)
  let dwb := store (store (store fresh 0 (dx 3)) 1 (dx 4)) 2 (dx 5)
  match vec_to_quat L dtheta fresh with
  | .error flt => .error flt
  | .ok dq =>
    let q1 := quat_mult q dq fresh
    let wb1 := vec_sum wb dwb fresh
    .ok (forLoop 0 4 (fun i (s : Buf K × Buf K) =>
      let q := store s.1 i (q1 i)
      if i > 2 then (q, s.2) else (q, store s.2 i (wb1 i))) (q, wb))

/-- The objects `eskf_update_mag` reaches through its pointer parameters. -/
structure MagMem (K : Type) where
  P : Buf K
  R : Buf K
  q : Buf K
  wb : Buf K

/-- How a call ends: it returns to its caller, or the execution stops at a
fault; either way with the caller's objects as they are at that point. -/
inductive Outcome (σ : Type) where
  | returned (m : σ)
  | stopped (flt : Fault) (m : σ)

/-- Lines 453-517. `temp0` and `H0` are the content of the uninitialised locals
`temp` and `H` at entry. -/
def eskf_update_mag (L : Libm K) (mag_sensor mag_i P R q wb temp0 H0 : Buf K) :
    Outcome (MagMem K) :=
  let mag_b := eskf_update_mag_mag_b L mag_i q
  let H := eskf_update_mag_H mag_b temp0 H0
  let R1 := eskf_update_mag_R R
  match eskf_update_mag_K P H R with
  | .error flt => .stopped flt ⟨P, R1, q, wb⟩
  | .ok gain =>
    let dx := eskf_update_mag_dx gain mag_sensor mag_b
    let _P1 := eskf_update_mag_P1 gain H P
    match eskf_update_mag_inject L dx q wb with
    | .error flt => .stopped flt ⟨P, R1, q, wb⟩
    | .ok (q1, wb1) => .returned ⟨P, R1, q1, wb1⟩

/-- Lines 115-130. `res = none` is the call with `res == NULL`. Returns the
object written to (`*res` when given, `*q` otherwise); nothing is written when
the sum of the squares is zero. -/
def quat_normalize (L : Libm K) (q : Buf K) (res : Option (Buf K)) : Buf K :=
  let n := forLoop 0 4 (fun i n => n + q i ^ 2) 0
  if n = 0 then res.getD q
  else
    let n := 1 / L.sqrt n
    match res with
    | some r => forLoop 0 4 (fun i r => store r i (q i * n)) r
    | none => forLoop 0 4 (fun i q => store q i (q i * n)) q

/-- Lines 139-145. -/
def quat_conjugate (q res : Buf K) : Buf K :=
  let res := store res 0 (-q 0)
  let res := store res 1 (-q 1)
  let res := store res 2 (-q 2)
  let res := store res 3 (q 3)
  res

/-- Lines 147-157. `v_b` is not `v_a` at any call. -/
def quat_frame_conv (q_rot_a2b v_a v_b : Buf K) : Buf K :=
  let q0 := q_rot_a2b 3
  let q1 := q_rot_a2b 0
  let q2 := q_rot_a2b 1
  let q3 := q_rot_a2b 2
  let v_b := store v_b 0
    ((2 * q0 ^ 2 - 1 + 2 * q1 ^ 2) * v_a 0 + (2 * q1 * q2 + 2 * q0 * q3) * v_a 1
      + (2 * q1 * q3 - 2 * q0 * q2) * v_a 2)
  let v_b := store v_b 1
    ((2 * q1 * q2 - 2 * q0 * q3) * v_a 0 + (2 * q2 ^ 2 + 2 * q0 ^ 2 - 1) * v_a 1
      + (2 * q2 * q3 + 2 * q0 * q1) * v_a 2)
  let v_b := store v_b 2
    ((2 * q1 * q3 + 2 * q0 * q2) * v_a 0 + (2 * q2 * q3 - 2 * q0 * q1) * v_a 1
      + (2 * q3 ^ 2 + 2 * q0 ^ 2 - 1) * v_a 2)
  v_b

/-- Lines 188-201 with both objects in the result: the `int` returned, `*vec`
after the call and `*res` after the call (`none` for `res == NULL`); `vec` and
`res` do not overlap. -/
def vec_normalize_mem (L : Libm K) (vec : Buf K) (res : Option (Buf K)) :
    Int × Buf K × Option (Buf K) :=
  let n := vec_norm L vec
  if n = 0 then (0, vec, res)
  else
    let n := 1 / n
    let s := forLoop 0 3 (fun i (s : Buf K × Option (Buf K)) =>
      match s.2 with
      | some r => (s.1, some (store r i (s.1 i * n)))
      | none => (store s.1 i (s.1 i * n), none)) (vec, res)
    (1, s.1, s.2)

/-- The rotation angle as the specification words it: the Euclidean norm of the
rotation vector `omega * dt`. -/
def spec_theta (L : Libm K) (omega : Buf K) (dt : K) : K :=
  L.sqrt ((omega 0 * dt) ^ 2 + (omega 1 * dt) ^ 2 + (omega 2 * dt) ^ 2)

/-- The rotation increment as the specification words it, vector part first and
scalar last: `[sin(theta/2) * (omega * dt) / theta, cos(theta/2)]`. -/
def spec_dq (L : Libm K) (omega : Buf K) (dt : K) : Buf K :=
  let theta := spec_theta L omega dt
  let dq := store fresh 0 (L.sin (theta / 2) * (omega 0 * dt) / theta)
  let dq := store dq 1 (L.sin (theta / 2) * (omega 1 * dt) / theta)
  let dq := store dq 2 (L.sin (theta / 2) * (omega 2 * dt) / theta)
  let dq := store dq 3 (L.cos (theta / 2))
  dq

/-- The state-transition matrix as the specification words it, cell `(i, j)`:
`F11 = transpose (quat_to_dcm dq)`, `F12 = -dt * I3`, `F21 = 0`, `F22 = I3`. -/
def spec_F (dq : Buf K) (dt : K) (i j : Nat) : K :=
  if i < 3 then
    if j < 3 then quat_to_dcm dq fresh (3 * j + i)
    else if j - 3 = i then -dt else 0
  else
    if j < 3 then 0
    else if j = i then 1 else 0

/-- The process-noise matrix as the specification words it, cell `(i, j)`:
block-diagonal, `(std_rn_w * dt)^2 * I3` top-left, `std_rw_w^2 * dt * I3`
bottom-right. -/
def spec_Q (dt : K) (i j : Nat) : K :=
  if i = j then
    if i < 3 then (std_rn_w * dt) ^ 2 else std_rw_w ^ 2 * dt
  else 0

/-- The product `P * h` for the first row `h` of `H`, component `i`. -/
def row0_Ph (P H : Buf K) (i : Nat) : K :=
  ∑ j ∈ Finset.range 6, P (6 * i + j) * H j

/-- The scalar `h * P * transpose h` for the first row `h` of `H`. -/
def row0_hPh (P H : Buf K) : K :=
  ∑ j ∈ Finset.range 6, H j * row0_Ph P H j

end Code

/-! ## Inputs at which the code is evaluated -/

section Inputs

variable {K : Type} [LinearOrderedField K]

/-- The identity quaternion `[0, 0, 0, 1]`. -/
def example_q : Buf K := store fresh 3 1

/-- The inertial reference `[0, 0, 1]`. -/
def example_mag_i : Buf K := store fresh 2 1

/-- The magnetometer reading `[1, 0, 1]`. -/
def example_mag_sensor : Buf K := store (store fresh 0 1) 2 1

/-- The covariance with the single non-zero entry `P[1][1] = 10^12`. -/
def example_P : Buf K := store fresh (6 * 1 + 1) 1000000000000

/-- The matrix with the single non-zero entry `P[1][1] = -0.000001`
(`= -std_rn_mag^2`). -/
def example_P_singular : Buf K := store fresh (6 * 1 + 1) (-0.000001)

/-- The symmetric covariance with `P[0][0] = 10^12`, `P[0][3] = P[3][0] = 1`,
`P[3][3] = 1` and zeros elsewhere. -/
def example_P_cross : Buf K :=
  store (store (store (store fresh (6 * 0 + 0) 1000000000000) (6 * 0 + 3) 1) (6 * 3 + 0) 1)
    (6 * 3 + 3) 1

/-- The magnetometer reading `[1, 0, 0]`. -/
def example_mag_x : Buf K := store fresh 0 1

/-- The pure quaternion `[v0, v1, v2, 0]` of a vector `v`. -/
def pure_quat (v : Buf K) : Buf K :=
  store (store (store (store fresh 0 (v 0)) 1 (v 1)) 2 (v 2)) 3 0

end Inputs

/-! ## The propagation routines on IEEE 754 doubles

The routines that `eskf_compute_error` runs, once more, with the arithmetic of
the C `double`: every operation returns the representable number nearest to the
exact result. The loops and the index arithmetic are those of the exact
versions above. -/

/-- A value of the IEEE 754 binary64 format (the C `double`): the finite number
`n / 2^1074` for an integer `n` (every finite `double` is of this form; `-0.0`
and `0.0` are one value), or `nonfinite` for the infinities and the NaNs. -/
inductive F64 where
  | finite (n : Int)
  | nonfinite
  deriving DecidableEq

namespace F64

/-- The quotient `n / d` rounded to an integer, to nearest, ties to even. -/
def rne (n d : Nat) : Nat :=
  let q := n / d
  let r := n % d
  if 2 * r < d then q else if d < 2 * r then q + 1 else if q % 2 = 0 then q else q + 1

/-- The position of the unit in the last place of the double nearest to
`a / d` (`a` and `d` positive): the largest `j < 2048` with
`2^(j - 1074 + 52) ≤ a / d`, found bit by bit, and 0 when there is none (the
subnormal range). The unit in the last place is `2^(j - 1074)`. -/
def ulp_index (a d : Nat) : Nat :=
  [1024, 512, 256, 128, 64, 32, 16, 8, 4, 2, 1].foldl
    (fun j b => if d * 2 ^ (j + b) ≤ a * 2 ^ 1022 then j + b else j) 0

/-- The `double` nearest to the rational `n / d` (`d` positive), ties to the
even significand (the rounding of IEEE 754 in its default mode): `n / d` is
counted in units in the last place and rounded by `rne`; the result is not
finite from `2^1024` on. -/
def round (n : Int) (d : Nat) : F64 :=
  if n = 0 then finite 0
  else
    let a := n.natAbs
    let j := ulp_index a d
    let m := rne (a * 2 ^ 1074) (d * 2 ^ j)
    let r := m * 2 ^ j
    if 2 ^ 2098 ≤ r then nonfinite
    else finite (if 0 < n then (r : Int) else -(r : Int))

/-- The operator `+` on doubles. -/
def add : F64 → F64 → F64
  | finite a, finite b => round (a + b) (2 ^ 1074)
  | _, _ => nonfinite

/-- The operator `-` on doubles. -/
def sub : F64 → F64 → F64
  | finite a, finite b => round (a - b) (2 ^ 1074)
  | _, _ => nonfinite

/-- The operator `*` on doubles. -/
def mul : F64 → F64 → F64
  | finite a, finite b => round (a * b) (2 ^ 2148)
  | _, _ => nonfinite

/-- The operator `/` on doubles; a zero divisor gives an infinity or a NaN. -/
def div : F64 → F64 → F64
  | finite a, finite b =>
    if b = 0 then nonfinite else round (if 0 < b then a else -a) b.natAbs
  | _, _ => nonfinite

/-- The unary `-` on doubles. -/
def neg : F64 → F64
  | finite a => finite (-a)
  | nonfinite => nonfinite

/-- The call `pow(x, n)` of `math.h` for an integral exponent `n`, as the
double nearest to the exact power. -/
def pow : F64 → Nat → F64
  | finite a, n =>
    round (if 0 ≤ a ∨ n % 2 = 0 then ((a.natAbs ^ n : Nat) : Int) else -((a.natAbs ^ n : Nat) : Int))
      (2 ^ (1074 * n))
  | nonfinite, _ => nonfinite

/-- The integer square root of a number below `2^2400`: the largest `s` with
`s * s ≤ n`, found bit by bit from bit 1199 down. -/
def isqrt (n : Nat) : Nat :=
  forLoop 0 1200 (fun i s =>
    let b := 2 ^ (1199 - i)
    if (s + b) * (s + b) ≤ n then s + b else s) 0

/-- The function `sqrt` of `math.h`, correctly rounded as IEEE 754 requires:
the root of `a / 2^1074` is taken with 64 binary places more than `2^(-537)`,
and one more bit tells an inexact root from an exact one. -/
def sqrt : F64 → F64
  | finite a =>
    if a < 0 then nonfinite
    else
      let A := a.natAbs * 2 ^ 128
      let s := isqrt A
      let sticky := if s * s = A then 0 else 1
      round ((2 * s + sticky : Nat) : Int) (2 ^ (64 + 537 + 1))
  | nonfinite => nonfinite

/-- The Taylor polynomial of the sine of degree `2 * terms - 1` at
`a / 2^1074`, as a numerator over the denominator
`(2 * terms - 1)! * 2^(1074 * (2 * terms - 1))`. -/
def sin_taylor (terms : Nat) (a : Int) : Int :=
  forLoop 0 terms (fun k acc =>
    let t : Nat := a.natAbs ^ (2 * k + 1) * 2 ^ (1074 * (2 * terms - 1 - (2 * k + 1)))
      * ((2 * terms - 1).factorial / (2 * k + 1).factorial)
    if (k % 2 = 0) = (0 ≤ a) then acc + (t : Int) else acc - (t : Int)) 0

/-- The Taylor polynomial of the cosine of degree `2 * terms - 2` at
`a / 2^1074`, as a numerator over the denominator
`(2 * terms - 2)! * 2^(1074 * (2 * terms - 2))`. -/
def cos_taylor (terms : Nat) (a : Int) : Int :=
  forLoop 0 terms (fun k acc =>
    let t : Nat := a.natAbs ^ (2 * k) * 2 ^ (1074 * (2 * terms - 2 - 2 * k))
      * ((2 * terms - 2).factorial / (2 * k).factorial)
    if k % 2 = 0 then acc + (t : Int) else acc - (t : Int)) 0

/-- The function `sin` of `math.h` for an argument of absolute value up to 1,
as the double nearest to the Taylor polynomial of degree 31 (which is within
`2^(-117)` of the sine there). -/
def sin : F64 → F64
  | finite a => round (sin_taylor 16 a) ((31).factorial * 2 ^ (1074 * 31))
  | nonfinite => nonfinite

/-- The function `cos` of `math.h` for an argument of absolute value up to 1,
as the double nearest to the Taylor polynomial of degree 30 (which is within
`2^(-117)` of the cosine there). -/
def cos : F64 → F64
  | finite a => round (cos_taylor 16 a) ((30).factorial * 2 ^ (1074 * 30))
  | nonfinite => nonfinite

instance : Add F64 := ⟨add⟩

instance : Sub F64 := ⟨sub⟩

instance : Mul F64 := ⟨mul⟩

instance : Div F64 := ⟨div⟩

instance : Neg F64 := ⟨neg⟩

instance : Pow F64 Nat := ⟨pow⟩

instance (n : Nat) : OfNat F64 n := ⟨round n 1⟩

instance : OfScientific F64 :=
  ⟨fun m s e => if s then round m (10 ^ e) else round ((m * 10 ^ e : Nat) : Int) 1⟩

/-- The double `m * 2^e`, for a significand `m` of 53 bits at most and an
exponent `e` from `-1074` on. -/
def dyadic (m e : Int) : F64 := finite (m * 2 ^ (e + 1074).toNat)

end F64

namespace IEEE

/-- The functions of `math.h` on doubles. -/
def libm : Libm F64 := ⟨F64.sqrt, F64.cos, F64.sin⟩

/-- Line 29: `const double std_rw_w = 0.001;`. -/
def std_rw_w : F64 := 0.001

/-- Line 30: `const double std_rn_w = 0.001;`. -/
def std_rn_w : F64 := 0.001

/-- A local object that the code writes in full before it reads it. -/
def fresh : Buf F64 := fun _ => 0

/-- Lines 179-186. -/
def vec_norm (L : Libm F64) (vec : Buf F64) : F64 :=
  L.sqrt (forLoop 0 3 (fun i res => res + vec i ^ 2) 0)

/-- Lines 232-240. -/
def vec_cons_mult (a : F64) (vec : Buf F64) (res : Option (Buf F64)) : Buf F64 :=
  match res with
  | some r => forLoop 0 3 (fun i r => store r i (vec i * a)) r
  | none => forLoop 0 3 (fun i v => store v i (v i * a)) vec

/-- Lines 308-322. -/
def _mat_mat_mult (lhs rhs res : Buf F64) (n_x n_y n_z : Nat) : Buf F64 :=
  forLoop 0 n_x (fun i res =>
    forLoop 0 n_z (fun k res =>
      let ires := i * n_z + k
      let res := store res ires 0
      forLoop 0 n_y (fun j res =>
        let il := i * n_y + j
        let ir := j * n_z + k
        store res ires (res ires + lhs il * rhs ir)) res) res) res

/-- Lines 329-334. -/
def _mat_mat_sum (lhs rhs res : Buf F64) (n_x n_y : Nat) : Buf F64 :=
  forLoop 0 (n_x * n_y) (fun i res => store res i (lhs i + rhs i)) res

/-- Lines 341-351. -/
def _mat_transpose (mat res : Buf F64) (n_x n_y : Nat) : Buf F64 :=
  forLoop 0 n_x (fun i res =>
    forLoop 0 n_y (fun j res =>
      let index := n_y * i + j
      let index_t := n_x * j + i
      store res index_t (mat index)) res) res

/-- Lines 353-363. -/
def _mat_copy (mat res : Buf F64) (matx maty resx _resy pi pj : Nat) : Buf F64 :=
  forLoop 0 matx (fun i res =>
    forLoop 0 maty (fun j res =>
      let i_mat := matx * i + j
      let i_res := resx * (i + pi) + j + pj
      store res i_res (mat i_mat)) res) res

/-- Lines 365-368. -/
def mat_transpose (mat res : Buf F64) : Buf F64 :=
  _mat_transpose mat res 3 3

/-- Lines 384-389. -/
def mat_set_diag (m : Buf F64) (a b c : F64) : Buf F64 :=
  let m := store m (3 * 0 + 0) a
  let m := store m (3 * 0 + 1) 0
  let m := store m (3 * 0 + 2) 0
  let m := store m (3 * 1 + 0) 0
  let m := store m (3 * 1 + 1) b
  let m := store m (3 * 1 + 2) 0
  let m := store m (3 * 2 + 0) 0
  let m := store m (3 * 2 + 1) 0
  let m := store m (3 * 2 + 2) c
  m

/-- Lines 91-99. -/
def axis_rotation_to_quat (L : Libm F64) (axis : Buf F64) (rot : F64) (res : Buf F64) :
    Buf F64 :=
  let rot := rot * 0.5
  let res := store res 3 (L.cos rot)
  forLoop 0 3 (fun i res => store res i (axis i * L.sin rot)) res

/-- Lines 83-89. On doubles the quotient `1.0 / rot` by a zero norm is not
finite, and the execution goes on with it. -/
def vec_to_quat (L : Libm F64) (axis res : Buf F64) : Buf F64 :=
  let rot := vec_norm L axis
  let u := vec_cons_mult (1 / rot) axis (some fresh)
  axis_rotation_to_quat L u rot res

/-- Lines 159-177. -/
def quat_to_dcm (q res : Buf F64) : Buf F64 :=
  let q1 := q 0
  let q2 := q 1
  let q3 := q 2
  let q4 := q 3
  let res := store res (3 * 0 + 0) (q1 ^ 2 - q2 ^ 2 - q3 ^ 2 + q4 ^ 2)
  let res := store res (3 * 0 + 1) (2 * (q1 * q2 + q3 * q4))
  let res := store res (3 * 0 + 2) (2 * (q1 * q3 - q2 * q4))
  let res := store res (3 * 1 + 0) (2 * (q1 * q2 - q3 * q4))
  let res := store res (3 * 1 + 1) (-1 * q1 ^ 2 + q2 ^ 2 - q3 ^ 2 + q4 ^ 2)
  let res := store res (3 * 1 + 2) (2 * (q2 * q3 + q1 * q4))
  let res := store res (3 * 2 + 0) (2 * (q1 * q3 + q2 * q4))
  let res := store res (3 * 2 + 1) (2 * (q2 * q3 - q1 * q4))
  let res := store res (3 * 2 + 2) (-1 * q1 ^ 2 - q2 ^ 2 + q3 ^ 2 + q4 ^ 2)
  res

/-- Lines 403-423 of `eskf_compute_error`: the matrix `F`. -/
def eskf_compute_error_F (dq_omegadt : Buf F64) (dt : F64) : Buf F64 :=
  let F : Buf F64 := fresh
  let rwb := quat_to_dcm dq_omegadt fresh
  let temp := mat_transpose rwb fresh
  let F := _mat_copy temp F 3 3 6 6 0 0
  let diag_val := -1 * dt
  let temp := mat_set_diag temp diag_val diag_val diag_val
  let F := _mat_copy temp F 3 3 6 6 0 3
  let temp := mat_set_diag temp 0 0 0
  let F := _mat_copy temp F 3 3 6 6 3 0
  let temp := mat_set_diag temp 1 1 1
  let F := _mat_copy temp F 3 3 6 6 3 3
  F

/-- Lines 425-441 of `eskf_compute_error`: the loop that fills `Q`. -/
def eskf_compute_error_Q (dt : F64) (Q : Buf F64) : Buf F64 :=
  (forLoop 0 2 (fun i s =>
    forLoop 0 2 (fun j (s : Buf F64 × Buf F64) =>
      if i = 0 ∧ j = 0 then
        let val := std_rn_w ^ 2 * dt ^ 2
        let temp := mat_set_diag s.1 val val val
        (temp, _mat_copy temp s.2 3 3 6 6 0 0)
      else if i = 1 ∧ j = 1 then
        let val := std_rw_w ^ 2 * dt
        let temp := mat_set_diag s.1 val val val
        (temp, _mat_copy temp s.2 3 3 6 6 3 3)
      else
        let temp := mat_set_diag s.1 0 0 0
        (temp, _mat_copy temp s.2 3 3 6 6 (i * 3) (j * 3))) s) (fresh, Q)).2

/-- Lines 401-451. Returns `P` and `Q` after the call. -/
def eskf_compute_error (L : Libm F64) (omega : Buf F64) (dt : F64) (P Q : Buf F64) :
    Buf F64 × Buf F64 :=
  let omega_dt := vec_cons_mult dt omega (some fresh)
  let dq_omegadt := vec_to_quat L omega_dt fresh
  let F := eskf_compute_error_F dq_omegadt dt
  let Q := eskf_compute_error_Q dt Q
  let Ft := _mat_transpose F fresh 6 6
  let FP := _mat_mat_mult F P fresh 6 6 6
  let FPFt := _mat_mat_mult FP Ft fresh 6 6 6
  let P := _mat_mat_sum FPFt Q P 6 6
  (P, Q)

/-- The angular rate `[0, 0, 1]`. -/
def example_omega : Buf F64 := store fresh 2 1

/-- The symmetric covariance with `P[0][0] = 10^12`, `P[0][3] = P[3][0] = 1`,
`P[3][3] = 1` and zeros elsewhere. -/
def example_P_cross : Buf F64 :=
  store (store (store (store fresh (6 * 0 + 0) 1000000000000) (6 * 0 + 3) 1) (6 * 3 + 0) 1)
    (6 * 3 + 3) 1

end IEEE

/-! ## Loops and stores -/

section Lemmas

variable {K : Type}

theorem store_apply (b : Buf K) (i : Nat) (v : K) (x : Nat) :
    store b i v x = if x = i then v else b x := rfl

theorem iterate_succ {σ : Type} (lo n : Nat) (body : Nat → σ → σ) (s : σ) :
    iterate lo (n + 1) body s = body (lo + n) (iterate lo n body s) := rfl

theorem iterate_zero {σ : Type} (lo : Nat) (body : Nat → σ → σ) (s : σ) :
    iterate lo 0 body s = s := rfl

/-- A loop whose iteration `i` overwrites the cells `W i` with values that do
not depend on the buffer, no cell being written by two iterations (`dec x` is
the one iteration that may write `x`). -/
theorem iterate_scatter (body : Nat → Buf K → Buf K) (W : Nat → Nat → Prop)
    [∀ i x, Decidable (W i x)] (val : Nat → Nat → K) (dec : Nat → Nat) (n : Nat)
    (hbody : ∀ i, i < n → ∀ r x, body i r x = if W i x then val i x else r x)
    (hdec : ∀ i x, i < n → W i x → dec x = i) (r : Buf K) (x : Nat) :
    iterate 0 n body r x = if dec x < n ∧ W (dec x) x then val (dec x) x else r x := by
  induction n with
  | zero => simp [iterate_zero]
  | succ n ih =>
    have ih := ih (fun i hi => hbody i (Nat.lt_succ_of_lt hi))
      (fun i y hi hw => hdec i y (Nat.lt_succ_of_lt hi) hw)
    rw [iterate_succ, hbody _ (by omega), Nat.zero_add]
    by_cases hw : W n x
    · have hd : dec x = n := hdec n x (Nat.lt_succ_self n) hw
      simp [hw, hd]
    · rw [if_neg hw, ih]
      by_cases hd : dec x = n
      · simp [hd, hw]
      · have : dec x < n + 1 ↔ dec x < n := by omega
        simp [this]

/-- A loop none of whose iterations writes the cell `x` leaves it as it was. -/
theorem iterate_frame (body : Nat → Buf K → Buf K) (n : Nat) (x : Nat)
    (hbody : ∀ i, i < n → ∀ r, body i r x = r x) (r : Buf K) :
    iterate 0 n body r x = r x := by
  induction n with
  | zero => rfl
  | succ n ih =>
    rw [iterate_succ, Nat.zero_add, hbody n (Nat.lt_succ_self n),
      ih (fun i hi => hbody i (Nat.lt_succ_of_lt hi))]

/-- The in-place loop `for i: m[i] = g (m[i])`. -/
theorem iterate_inplace (g : K → K) (n : Nat) (m : Buf K) (x : Nat) :
    iterate 0 n (fun i m => store m i (g (m i))) m x = if x < n then g (m x) else m x := by
  induction n with
  | zero => simp [iterate_zero]
  | succ n ih =>
    rw [iterate_succ, store_apply, Nat.zero_add]
    by_cases hx : x = n
    · subst hx
      have := iterate_frame (fun i m => store m i (g (m i))) x x
        (fun i hi r => by simp [store_apply]; omega) m
      simp [this]
    · rw [if_neg hx, ih]
      have : x < n + 1 ↔ x < n := by omega
      simp [this]

/-- The loop `for i: r[i] = v i`. -/
theorem iterate_fill (v : Nat → K) (n : Nat) (r : Buf K) (x : Nat) :
    iterate 0 n (fun i r => store r i (v i)) r x = if x < n then v x else r x := by
  rw [iterate_scatter _ (fun i y => y = i) (fun i _ => v i) (fun y => y) n
    (fun i _ r y => by simp [store_apply]) (fun i y _ hw => hw) r x]
  simp

/-- The accumulation loop `for j: r[t] += f j`. -/
theorem iterate_accum [Field K] (t : Nat) (f : Nat → K) (n : Nat) (r : Buf K) (x : Nat) :
    iterate 0 n (fun j r => store r t (r t + f j)) r x
      = if x = t then r t + ∑ j ∈ Finset.range n, f j else r x := by
  induction n with
  | zero => by_cases hx : x = t <;> simp [iterate_zero, hx]
  | succ n ih =>
    rw [iterate_succ, store_apply, Nat.zero_add]
    by_cases hx : x = t
    · have := ih
      subst hx
      simp only [if_true] at this ⊢
      have h2 : iterate 0 n (fun j r => store r x (r x + f j)) r x
          = r x + ∑ j ∈ Finset.range n, f j := by simpa using ih
      rw [h2, Finset.sum_range_succ]; ring
    · simp only [hx, if_false] at ih ⊢
      exact ih

/-- Row-major decoding: `x = i * w + d` with `d < w` has quotient `i`. -/
theorem div_of_row (i w x : Nat) (h : x - i * w < w ∧ x = i * w + (x - i * w)) :
    x / w = i := by
  obtain ⟨h1, h2⟩ := h
  apply Nat.div_eq_of_lt_le
  · omega
  · rw [Nat.add_mul]; omega

theorem row_iff (n w x : Nat) :
    (x / w < n ∧ (x - x / w * w < w ∧ x = x / w * w + (x - x / w * w))) ↔ x < n * w := by
  rcases Nat.eq_zero_or_pos w with hw | hw
  · subst hw; simp
  · have h1 : x / w * w ≤ x := Nat.div_mul_le_self x w
    have h2 : x - x / w * w = x % w := by
      have := Nat.div_add_mod x w
      rw [Nat.mul_comm] at this
      omega
    have h3 : x % w < w := Nat.mod_lt x hw
    have h4 : x / w < n ↔ x < n * w := Nat.div_lt_iff_lt_mul hw
    constructor
    · rintro ⟨h, -⟩; exact h4.mp h
    · intro h; exact ⟨h4.mpr h, by omega, by omega⟩

theorem sub_div_mul (w x : Nat) : x - x / w * w = x % w := by
  have h1 : x / w * w ≤ x := Nat.div_mul_le_self x w
  have := Nat.div_add_mod x w
  rw [Nat.mul_comm] at this
  omega

theorem row_iff_mod (n w x : Nat) :
    (x / w < n ∧ (x % w < w ∧ x = x / w * w + x % w)) ↔ x < n * w := by
  rw [← sub_div_mul]; exact row_iff n w x

/-- Closed form of `_mat_mat_mult`: the `n_x * n_z` first cells of `res` hold
the product, the others are not written. -/
theorem mat_mat_mult_spec [LinearOrderedField K] (lhs rhs res : Buf K) (n_x n_y n_z x : Nat) :
    _mat_mat_mult lhs rhs res n_x n_y n_z x
      = if x < n_x * n_z then
          ∑ j ∈ Finset.range n_y, lhs (x / n_z * n_y + j) * rhs (j * n_z + x % n_z)
        else res x := by
  unfold _mat_mat_mult forLoop
  simp only [Nat.sub_zero]
  have hk : ∀ i k (r : Buf K) y,
      iterate 0 n_y (fun j res => store res (i * n_z + k)
        (res (i * n_z + k) + lhs (i * n_y + j) * rhs (j * n_z + k)))
        (store r (i * n_z + k) 0) y
      = if y = i * n_z + k then
          ∑ j ∈ Finset.range n_y, lhs (i * n_y + j) * rhs (j * n_z + k)
        else r y := by
    intro i k r y
    rw [iterate_accum]
    by_cases hy : y = i * n_z + k <;> simp [store_apply, hy]
  have hrow : ∀ i (r : Buf K) y,
      iterate 0 n_z (fun k res =>
        iterate 0 n_y (fun j res => store res (i * n_z + k)
          (res (i * n_z + k) + lhs (i * n_y + j) * rhs (j * n_z + k)))
          (store res (i * n_z + k) 0)) r y
      = if y - i * n_z < n_z ∧ y = i * n_z + (y - i * n_z) then
          ∑ j ∈ Finset.range n_y, lhs (i * n_y + j) * rhs (j * n_z + (y - i * n_z))
        else r y := by
    intro i r y
    exact iterate_scatter _ (fun k y => y = i * n_z + k)
      (fun k _ => ∑ j ∈ Finset.range n_y, lhs (i * n_y + j) * rhs (j * n_z + k))
      (fun y => y - i * n_z) n_z (fun k _ r y => hk i k r y)
      (fun k y _ hw => by simp only [hw]; omega) r y
  rw [iterate_scatter _ (fun i y => y - i * n_z < n_z ∧ y = i * n_z + (y - i * n_z))
    (fun i y => ∑ j ∈ Finset.range n_y, lhs (i * n_y + j) * rhs (j * n_z + (y - i * n_z)))
    (fun y => y / n_z) n_x (fun i _ r y => hrow i r y)
    (fun i y _ hw => div_of_row i n_z y hw) res x]
  simp only [sub_div_mul, row_iff_mod]

/-- Closed form of `_mat_vec_mult`. -/
theorem mat_vec_mult_spec [LinearOrderedField K] (mat vec res : Buf K) (n_x n_y x : Nat) :
    _mat_vec_mult mat vec res n_x n_y x
      = if x < n_x then ∑ j ∈ Finset.range n_y, mat (x * n_y + j) * vec j else res x := by
  unfold _mat_vec_mult forLoop
  simp only [Nat.sub_zero]
  have hrow : ∀ i (r : Buf K) y,
      iterate 0 n_y (fun j res => store res i (res i + mat (i * n_y + j) * vec j))
        (store r i 0) y
      = if y = i then ∑ j ∈ Finset.range n_y, mat (i * n_y + j) * vec j else r y := by
    intro i r y
    rw [iterate_accum]
    by_cases hy : y = i <;> simp [store_apply, hy]
  rw [iterate_scatter _ (fun i y => y = i)
    (fun i _ => ∑ j ∈ Finset.range n_y, mat (i * n_y + j) * vec j) (fun y => y) n_x
    (fun i _ r y => hrow i r y) (fun i y _ hw => hw) res x]
  simp

/-- Closed form of `_mat_mat_sum`. -/
theorem mat_mat_sum_spec [LinearOrderedField K] (lhs rhs res : Buf K) (n_x n_y x : Nat) :
    _mat_mat_sum lhs rhs res n_x n_y x
      = if x < n_x * n_y then lhs x + rhs x else res x := by
  unfold _mat_mat_sum forLoop
  simp only [Nat.sub_zero]
  exact iterate_fill (fun i => lhs i + rhs i) (n_x * n_y) res x

/-- Closed form of `_mat_cons_mult` called with `res == NULL`. -/
theorem mat_cons_mult_none_spec [LinearOrderedField K] (a : K) (mat : Buf K)
    (n_x n_y x : Nat) :
    _mat_cons_mult a mat none n_x n_y x
      = if x < n_x * n_y then mat x * a else mat x := by
  unfold _mat_cons_mult forLoop
  simp only [Nat.sub_zero]
  exact iterate_inplace (fun v => v * a) (n_x * n_y) mat x

/-- Closed form of `_mat_set_diag`. -/
theorem mat_set_diag_spec [LinearOrderedField K] (m : Buf K) (val : K) (n_x n_y x : Nat) :
    _mat_set_diag m val n_x n_y x
      = if x < n_x * n_y then (if x / n_y = x % n_y then val else 0) else m x := by
  unfold _mat_set_diag forLoop
  simp only [Nat.sub_zero]
  have hrow : ∀ i (r : Buf K) y,
      iterate 0 n_y (fun j m =>
        if i = j then store m (i * n_y + j) val else store m (i * n_y + j) 0) r y
      = if y - i * n_y < n_y ∧ y = i * n_y + (y - i * n_y) then
          (if i = y - i * n_y then val else 0)
        else r y := by
    intro i r y
    exact iterate_scatter _ (fun j y => y = i * n_y + j)
      (fun j _ => if i = j then val else 0) (fun y => y - i * n_y) n_y
      (fun j _ r y => by by_cases hij : i = j <;> simp [store_apply, hij])
      (fun j y _ hw => by simp only [hw]; omega) r y
  rw [iterate_scatter _ (fun i y => y - i * n_y < n_y ∧ y = i * n_y + (y - i * n_y))
    (fun i y => if i = y - i * n_y then val else 0)
    (fun y => y / n_y) n_x (fun i _ r y => hrow i r y)
    (fun i y _ hw => div_of_row i n_y y hw) m x]
  simp only [sub_div_mul, row_iff_mod]

/-- Closed form of `_mat_transpose`: cell `n_x * j + i` of `res` receives cell
`n_y * i + j` of `mat`. -/
theorem mat_transpose_spec [LinearOrderedField K] (mat res : Buf K) (n_x n_y x : Nat) :
    _mat_transpose mat res n_x n_y x
      = if x < n_x * n_y then mat (n_y * (x % n_x) + x / n_x) else res x := by
  unfold _mat_transpose forLoop
  simp only [Nat.sub_zero]
  have hrow : ∀ i, i < n_x → ∀ (r : Buf K) y,
      iterate 0 n_y (fun j res => store res (n_x * j + i) (mat (n_y * i + j))) r y
      = if y / n_x < n_y ∧ y = n_x * (y / n_x) + i then mat (n_y * i + y / n_x)
        else r y := by
    intro i hi r y
    exact iterate_scatter _ (fun j y => y = n_x * j + i)
      (fun j _ => mat (n_y * i + j)) (fun y => y / n_x) n_y
      (fun j _ r y => by simp [store_apply])
      (fun j y _ hw => by
        simp only [hw]
        rw [Nat.mul_add_div (by omega), Nat.div_eq_of_lt hi]; rfl) r y
  rw [iterate_scatter _ (fun i y => y / n_x < n_y ∧ y = n_x * (y / n_x) + i)
    (fun i y => mat (n_y * i + y / n_x))
    (fun y => y % n_x) n_x hrow
    (fun i y hi hw => by
      have h2 := hw.2
      calc y % n_x = (n_x * (y / n_x) + i) % n_x := by rw [← h2]
        _ = i := by rw [Nat.mul_add_mod, Nat.mod_eq_of_lt hi]) res x]
  have hiff : (x % n_x < n_x ∧ x / n_x < n_y ∧ x = n_x * (x / n_x) + x % n_x) ↔ x < n_x * n_y := by
    rcases Nat.eq_zero_or_pos n_x with h0 | hpos
    · subst h0; simp
    · have h1 := Nat.mod_lt x hpos
      have h2 := (Nat.div_add_mod x n_x).symm
      have h3 : x / n_x < n_y ↔ x < n_y * n_x := Nat.div_lt_iff_lt_mul hpos
      rw [Nat.mul_comm n_x n_y]
      constructor
      · rintro ⟨-, h, -⟩; exact h3.mp h
      · intro h; exact ⟨h1, h3.mpr h, h2⟩
  simp only [hiff]

/-- Cells that `_mat_copy` does not address keep their content. -/
theorem mat_copy_frame [LinearOrderedField K] (mat res : Buf K)
    (matx maty resx resy pi pj x : Nat)
    (hx : ∀ i, i < matx → ∀ j, j < maty → x ≠ resx * (i + pi) + j + pj) :
    _mat_copy mat res matx maty resx resy pi pj x = res x := by
  unfold _mat_copy forLoop
  simp only [Nat.sub_zero]
  apply iterate_frame
  intro i hi r
  apply iterate_frame
  intro j hj r
  simp [store_apply, hx i hi j hj]

/-- Closed form of `_mat_copy` when a source row is no longer than the stride
`resx` the code uses for the destination: the cell `y` is written by the
iteration `i = (y - pj) / resx - pi`, `j = y - pj - resx * (i + pi)`, if there
is such an iteration. -/
theorem mat_copy_spec [LinearOrderedField K] (mat res : Buf K)
    (matx maty resx resy pi pj : Nat) (hle : maty ≤ resx) (y : Nat) :
    _mat_copy mat res matx maty resx resy pi pj y
      = if (y - pj) / resx - pi < matx
            ∧ y - pj - resx * ((y - pj) / resx - pi + pi) < maty
            ∧ y = resx * ((y - pj) / resx - pi + pi)
                + (y - pj - resx * ((y - pj) / resx - pi + pi)) + pj then
          mat (matx * ((y - pj) / resx - pi)
            + (y - pj - resx * ((y - pj) / resx - pi + pi)))
        else res y := by
  unfold _mat_copy forLoop
  simp only [Nat.sub_zero]
  have hrow : ∀ i (r : Buf K) y,
      iterate 0 maty (fun j res => store res (resx * (i + pi) + j + pj) (mat (matx * i + j))) r y
      = if y - pj - resx * (i + pi) < maty
            ∧ y = resx * (i + pi) + (y - pj - resx * (i + pi)) + pj then
          mat (matx * i + (y - pj - resx * (i + pi)))
        else r y := by
    intro i r y
    exact iterate_scatter _ (fun j y => y = resx * (i + pi) + j + pj)
      (fun j _ => mat (matx * i + j)) (fun y => y - pj - resx * (i + pi)) maty
      (fun j _ r y => by simp [store_apply])
      (fun j y _ hw => by simp only [hw]; omega) r y
  exact iterate_scatter _
    (fun i y => y - pj - resx * (i + pi) < maty
      ∧ y = resx * (i + pi) + (y - pj - resx * (i + pi)) + pj)
    (fun i y => mat (matx * i + (y - pj - resx * (i + pi))))
    (fun y => (y - pj) / resx - pi) matx (fun i _ r y => hrow i r y)
    (fun i y _ hw => by
      obtain ⟨h1, h2⟩ := hw
      have h3 : y - pj = resx * (i + pi) + (y - pj - resx * (i + pi)) := by omega
      have h4 : (y - pj) / resx = i + pi := by
        apply Nat.div_eq_of_lt_le
        · rw [Nat.mul_comm]; omega
        · rw [Nat.add_mul, Nat.mul_comm (i + pi) resx]; omega
      show (y - pj) / resx - pi = i
      omega) res y

/-- Placement by `_mat_copy` when a source row is no longer than the stride
`resx`: iteration `(i, j)` is the last to write its cell. -/
theorem mat_copy_entry [LinearOrderedField K] (mat res : Buf K)
    (matx maty resx resy pi pj : Nat) (hle : maty ≤ resx) (i j : Nat)
    (hi : i < matx) (hj : j < maty) :
    _mat_copy mat res matx maty resx resy pi pj (resx * (i + pi) + j + pj)
      = mat (matx * i + j) := by
  rw [mat_copy_spec mat res matx maty resx resy pi pj hle]
  have h1 : resx * (i + pi) + j + pj - pj = resx * (i + pi) + j := by omega
  have h2 : (resx * (i + pi) + j) / resx = i + pi := by
    apply Nat.div_eq_of_lt_le
    · rw [Nat.mul_comm]; omega
    · rw [Nat.add_mul, Nat.mul_comm (i + pi) resx]; omega
  have h3 : i + pi - pi = i := by omega
  have h4 : resx * (i + pi) + j - resx * (i + pi) = j := by omega
  simp only [h1, h2, h3, h4]
  simp [hi, hj]

end Lemmas

/-! ## Vector and 3x3 routines -/

section Claims

variable {K : Type} [LinearOrderedField K]

/-- What `vec_inner_product` computes: the loop starts at index 1. -/
theorem vec_inner_product_eq (a b : Buf K) :
    vec_inner_product a b = a 1 * b 1 + a 2 * b 2 := by
  simp [vec_inner_product, forLoop, iterate]

/-- C7, evaluated on the code: for `a = b = [1, 0, 0]` the three-term dot
product `a0*b0 + a1*b1 + a2*b2` is `1` and `vec_inner_product` returns `0`,
the product of the components of index 0 being left out. -/
theorem vec_inner_product_drops_index_zero :
    vec_inner_product (store fresh 0 (1 : ℚ)) (store fresh 0 (1 : ℚ)) = 0
    ∧ (store fresh 0 (1 : ℚ)) 0 * (store fresh 0 (1 : ℚ)) 0
        + (store fresh 0 (1 : ℚ)) 1 * (store fresh 0 (1 : ℚ)) 1
        + (store fresh 0 (1 : ℚ)) 2 * (store fresh 0 (1 : ℚ)) 2 = 1 := by
  constructor
  · rw [vec_inner_product_eq]; simp [store_apply, fresh]
  · simp [store_apply, fresh]

/-- The diagonal of the output of `mat_skew` is what it was before the call. -/
theorem mat_skew_diag (v res : Buf K) (i : Nat) :
    mat_skew v res (3 * i + i) = res (3 * i + i) := by
  simp only [mat_skew, store_apply]
  rw [if_neg (by omega), if_neg (by omega), if_neg (by omega), if_neg (by omega),
    if_neg (by omega), if_neg (by omega)]

/-- When the diagonal of the output is zero before the call, `mat_skew` yields
the cross-product matrix: `mat_vec_mult` by it is `vec_outer_product`. -/
theorem mat_skew_mul_of_zero_diag (v x res out1 out2 : Buf K)
    (h0 : res 0 = 0) (h4 : res 4 = 0) (h8 : res 8 = 0) (k : Nat) (hk : k < 3) :
    mat_vec_mult (mat_skew v res) x out1 k = vec_outer_product v x out2 k := by
  rw [mat_vec_mult, mat_vec_mult_spec]
  interval_cases k <;>
    simp [Finset.sum_range_succ, mat_skew, vec_outer_product, store_apply, h0, h4, h8] <;> ring

/-- C8, evaluated on the code: `mat_skew` writes the six off-diagonal cells
only. For `v = [0,0,0]` and an output that held the identity matrix, the result
still has `M[0][0] = 1`, and `mat_vec_mult (M, [1,0,0])` has first component `1`
where `vec_outer_product (v, [1,0,0])` has `0`. -/
theorem mat_skew_keeps_diagonal :
    mat_skew (fresh : Buf ℚ) (mat_set_diag fresh 1 1 1) (3 * 0 + 0) = 1
    ∧ mat_vec_mult (mat_skew (fresh : Buf ℚ) (mat_set_diag fresh 1 1 1))
        (store fresh 0 1) fresh 0 = 1
    ∧ vec_outer_product (fresh : Buf ℚ) (store fresh 0 1) fresh 0 = 0 := by
  refine ⟨?_, ?_, ?_⟩
  · simp [mat_skew, mat_set_diag, store_apply]
  · rw [mat_vec_mult, mat_vec_mult_spec]
    simp [Finset.sum_range_succ, mat_skew, mat_set_diag, store_apply, fresh]
  · simp [vec_outer_product, store_apply, fresh]

/-- Where the stride the code uses (`resx`, the number of rows) is the number
of columns of the destination and the source is square, `_mat_copy` places the
block as a row-major copy does and writes nothing else. -/
theorem mat_copy_square_stride (mat res : Buf K) (p n rowOffset colOffset : Nat)
    (hcol : colOffset + p ≤ n) :
    (∀ i, i < p → ∀ j, j < p →
      _mat_copy mat res p p n n rowOffset colOffset ((rowOffset + i) * n + colOffset + j)
        = mat (i * p + j))
    ∧ (∀ x, (∀ i, i < p → ∀ j, j < p → x ≠ (rowOffset + i) * n + colOffset + j) →
      _mat_copy mat res p p n n rowOffset colOffset x = res x) := by
  constructor
  · intro i hi j hj
    have h := mat_copy_entry mat res p p n n rowOffset colOffset (by omega) i j hi hj
    have e1 : (rowOffset + i) * n + colOffset + j = n * (i + rowOffset) + j + colOffset := by
      rw [Nat.mul_comm, Nat.add_comm rowOffset i]; omega
    rw [e1, h, Nat.mul_comm]
  · intro x hx
    apply mat_copy_frame
    intro i hi j hj
    have e1 : (rowOffset + i) * n + colOffset + j = n * (i + rowOffset) + j + colOffset := by
      rw [Nat.mul_comm, Nat.add_comm rowOffset i]; omega
    rw [← e1]; exact hx i hi j hj

/-- C4, evaluated on the code: copying the 3x3 source `src[k] = k + 1` into a
zeroed 3x6 destination at row 0, column 3 (the second call of
`eskf_update_mag`). Row-major placement puts `src[1*3+0] = 4` in cell
`(0+1)*6 + 3 + 0 = 9` and leaves cell `1*6 + 0 = 6` (row 1, column 0) at `0`; the
code indexes the destination with stride `resx = 3`, so cell 9 receives
`src[6] = 7` and cell 6 receives `src[3] = 4`. -/
theorem mat_copy_3x6_uses_row_count_as_stride :
    _mat_copy (fun k => (k : ℚ) + 1) fresh 3 3 3 6 0 3 ((0 + 1) * 6 + 3 + 0) = 7
    ∧ (fun k => (k : ℚ) + 1) (1 * 3 + 0) = (4 : ℚ)
    ∧ _mat_copy (fun k => (k : ℚ) + 1) fresh 3 3 3 6 0 3 (1 * 6 + 0) = 4
    ∧ (fresh : Buf ℚ) (1 * 6 + 0) = 0 := by
  refine ⟨?_, ?_, ?_, ?_⟩
  · rw [mat_copy_spec _ _ _ _ _ _ _ _ (by decide)]; norm_num
  · norm_num
  · rw [mat_copy_spec _ _ _ _ _ _ _ _ (by decide)]; norm_num
  · rfl

/-- A `double` of absolute value below one converts to the `int` zero. -/
theorem double_to_int_of_abs_lt_one [FloorRing K] (x : K) (hx : |x| < 1) :
    double_to_int x = .ok 0 := by
  have h1 := abs_lt.mp hx
  unfold double_to_int
  by_cases h0 : 0 ≤ x
  · have : Int.floor x = 0 := by
      rw [Int.floor_eq_iff]; constructor
      · simpa using h0
      · simpa using h1.2
    simp [h0, this, INT_MIN, INT_MAX]
  · have : Int.ceil x = 0 := by
      rw [Int.ceil_eq_iff]; constructor
      · simpa using h1.1
      · simp; linarith
    simp [h0, this, INT_MIN, INT_MAX]

/-- The conversion never yields zero for a `double` of absolute value at least
one. -/
theorem double_to_int_ne_zero [FloorRing K] (x : K) (n : Int) (hx : 1 ≤ |x|)
    (h : double_to_int x = .ok n) : n ≠ 0 := by
  unfold double_to_int at h
  by_cases h0 : 0 ≤ x
  · simp only [h0, if_true] at h
    split at h
    · injection h with h
      rw [abs_of_nonneg h0] at hx
      have : (1 : Int) ≤ Int.floor x := by rw [Int.le_floor]; simpa using hx
      omega
    · cases h
  · simp only [h0, if_false] at h
    split at h
    · injection h with h
      rw [abs_of_neg (lt_of_not_ge h0)] at hx
      have : Int.ceil x ≤ -1 := by rw [Int.ceil_le]; simp; linarith
      omega
    · cases h

/-- C5, evaluated on the code: `diag(0.5, 1, 1)` has `detmat = 0.5`, far above
`1e-25`, and `mat_inverse` stops at the assertion of line 272: `abs` is the
integer function, its argument `0.5` becomes the `int` `0`, and `0 >= 1E-25` is
false. -/
theorem mat_inverse_rejects_half_determinant :
    mat_inverse_detmat (mat_set_diag (fresh : Buf ℚ) 0.5 1 1) = 0.5
    ∧ |mat_inverse_detmat (mat_set_diag (fresh : Buf ℚ) 0.5 1 1)| ≥ 1E-25
    ∧ mat_inverse (mat_set_diag (fresh : Buf ℚ) 0.5 1 1) fresh = .error Fault.assertion := by
  have hd : mat_inverse_detmat (mat_set_diag (fresh : Buf ℚ) 0.5 1 1) = 0.5 := by
    simp [mat_inverse_detmat, mat_set_diag, store_apply]
  refine ⟨hd, ?_, ?_⟩
  · rw [hd, abs_of_pos (by norm_num)]; norm_num
  · have hz := double_to_int_of_abs_lt_one (0.5 : ℚ)
      (by rw [abs_of_pos (by norm_num)]; norm_num)
    have hd2 : mat_inverse_detmat (mat_set_diag (fresh : Buf ℚ) 0.5 1 1) = 0.5 := hd
    simp only [mat_inverse_detmat] at hd2
    simp only [mat_inverse, hd2, hz]
    simp [stdlib.abs, INT_MIN]
    norm_num

/-- The check of line 272 in terms of the converted determinant. -/
theorem mat_inverse_eq [FloorRing K] (mat res : Buf K) :
    mat_inverse mat res =
      match double_to_int (mat_inverse_detmat mat) with
      | .error flt => .error flt
      | .ok n =>
        match stdlib.abs n with
        | .error flt => .error flt
        | .ok m =>
          if ((m : Int) : K) ≥ 1E-25 then .ok (mat_inverse_value mat res)
          else .error Fault.assertion := rfl

/-- A success of `mat_inverse` means a non-zero determinant, and the result is
the adjugate divided by it. -/
theorem mat_inverse_ok_imp [FloorRing K] (mat res B : Buf K)
    (h : mat_inverse mat res = .ok B) :
    mat_inverse_detmat mat ≠ 0 ∧ B = mat_inverse_value mat res := by
  rw [mat_inverse_eq] at h
  split at h
  · cases h
  · rename_i n hn
    split at h
    · cases h
    · rename_i m hm
      split at h
      · rename_i hge
        injection h with h
        refine ⟨?_, h.symm⟩
        intro hdet
        have h0 : double_to_int (mat_inverse_detmat mat) = .ok 0 :=
          double_to_int_of_abs_lt_one _ (by rw [hdet]; simp)
        rw [h0] at hn
        injection hn with hn
        subst hn
        simp [stdlib.abs, INT_MIN] at hm
        subst hm
        norm_num at hge
      · cases h

/-- The check of line 272 passes when `1 ≤ |detmat| < 2^31`. -/
theorem mat_inverse_of_one_le_det [FloorRing K] (mat res : Buf K)
    (h1 : 1 ≤ |mat_inverse_detmat mat|) (h2 : |mat_inverse_detmat mat| < 2147483648) :
    mat_inverse mat res = .ok (mat_inverse_value mat res) := by
  rw [mat_inverse_eq]
  generalize mat_inverse_detmat mat = x at h1 h2
  have hb := abs_lt.mp h2
  have key : ∃ n : Int, double_to_int x = .ok n ∧ n ≠ 0 ∧ INT_MIN < n := by
    unfold double_to_int
    by_cases h0 : 0 ≤ x
    · rw [abs_of_nonneg h0] at h1
      have ha : (1 : Int) ≤ Int.floor x := by rw [Int.le_floor]; simpa using h1
      have hc : Int.floor x < 2147483648 := by
        rw [Int.floor_lt]; simpa using hb.2
      refine ⟨Int.floor x, ?_, by omega, by simp only [INT_MIN]; omega⟩
      simp only [h0, if_true, INT_MIN, INT_MAX]
      rw [if_pos (by omega)]
    · rw [abs_of_neg (lt_of_not_ge h0)] at h1
      have ha : Int.ceil x ≤ -1 := by rw [Int.ceil_le]; simp; linarith
      have hc : -2147483648 < Int.ceil x := by
        rw [Int.lt_ceil]; simpa using hb.1
      refine ⟨Int.ceil x, ?_, by omega, by simp only [INT_MIN]; omega⟩
      simp only [h0, if_false, INT_MIN, INT_MAX]
      rw [if_pos (by omega)]
  obtain ⟨n, hn, hn0, hmin⟩ := key
  simp only [hn, stdlib.abs]
  rw [if_neg (by omega)]
  simp only
  rw [if_pos]
  have hpos : (1 : Int) ≤ (if n < 0 then -n else n) := by
    split <;> omega
  have : (1 : K) ≤ ((if n < 0 then -n else n : Int) : K) := by exact_mod_cast hpos
  have h25 : (1E-25 : K) ≤ 1 := by norm_num
  exact le_trans h25 this

/-- The check of line 272 fails when `|detmat| < 1`. -/
theorem mat_inverse_of_det_lt_one [FloorRing K] (mat res : Buf K)
    (h1 : |mat_inverse_detmat mat| < 1) :
    mat_inverse mat res = .error Fault.assertion := by
  rw [mat_inverse_eq, double_to_int_of_abs_lt_one _ h1]
  simp only [stdlib.abs, INT_MIN]
  norm_num

/-- Entry `(i, j)` of a 3x3 product computed by `mat_mat_mult`. -/
theorem mat_mat_mult_entry (lhs rhs out : Buf K) (i j : Nat) (hi : i < 3) (hj : j < 3) :
    mat_mat_mult lhs rhs out (3 * i + j)
      = lhs (3 * i) * rhs j + lhs (3 * i + 1) * rhs (3 + j) + lhs (3 * i + 2) * rhs (6 + j) := by
  rw [mat_mat_mult, mat_mat_mult_spec, if_pos (by omega)]
  have h1 : (3 * i + j) / 3 = i := by omega
  have h2 : (3 * i + j) % 3 = j := by omega
  rw [h1, h2]
  simp only [Finset.sum_range_succ, Finset.sum_range_zero, Nat.mul_comm i 3]
  norm_num

/-- The nine cells written by `mat_inverse`. -/
theorem mat_inverse_value_cells (mat res : Buf K) :
    mat_inverse_value mat res 0
        = (mat 4 * mat 8 - mat 5 * mat 7) / mat_inverse_detmat mat
    ∧ mat_inverse_value mat res 1
        = -1 * (mat 1 * mat 8 - mat 2 * mat 7) / mat_inverse_detmat mat
    ∧ mat_inverse_value mat res 2
        = (mat 1 * mat 5 - mat 2 * mat 4) / mat_inverse_detmat mat
    ∧ mat_inverse_value mat res 3
        = -1 * (mat 3 * mat 8 - mat 5 * mat 6) / mat_inverse_detmat mat
    ∧ mat_inverse_value mat res 4
        = (mat 0 * mat 8 - mat 2 * mat 6) / mat_inverse_detmat mat
    ∧ mat_inverse_value mat res 5
        = -1 * (mat 0 * mat 5 - mat 2 * mat 3) / mat_inverse_detmat mat
    ∧ mat_inverse_value mat res 6
        = (mat 3 * mat 7 - mat 4 * mat 6) / mat_inverse_detmat mat
    ∧ mat_inverse_value mat res 7
        = -1 * (mat 0 * mat 7 - mat 1 * mat 6) / mat_inverse_detmat mat
    ∧ mat_inverse_value mat res 8
        = (mat 0 * mat 4 - mat 1 * mat 3) / mat_inverse_detmat mat :=
  ⟨rfl, rfl, rfl, rfl, rfl, rfl, rfl, rfl, rfl⟩

/-- The determinant in terms of the nine cells. -/
theorem mat_inverse_detmat_eq (mat : Buf K) :
    mat_inverse_detmat mat
      = mat 0 * (mat 4 * mat 8 - mat 5 * mat 7)
        + mat 1 * (-1 * (mat 3 * mat 8 - mat 5 * mat 6))
        + mat 2 * (mat 3 * mat 7 - mat 4 * mat 6) := rfl

/-- C6: when `mat_inverse` succeeds on `A` with result `B`, both
`mat_mat_mult (A, B)` and `mat_mat_mult (B, A)` are the identity matrix, entry
by entry. -/
theorem mat_inverse_round_trip [FloorRing K] (A res B out : Buf K)
    (h : mat_inverse A res = .ok B) (i j : Nat) (hi : i < 3) (hj : j < 3) :
    mat_mat_mult A B out (3 * i + j) = (if i = j then 1 else 0)
    ∧ mat_mat_mult B A out (3 * i + j) = (if i = j then 1 else 0) := by
  obtain ⟨hdet, hB⟩ := mat_inverse_ok_imp A res B h
  subst hB
  obtain ⟨c0, c1, c2, c3, c4, c5, c6, c7, c8⟩ := mat_inverse_value_cells A res
  rw [mat_mat_mult_entry _ _ _ i j hi hj, mat_mat_mult_entry _ _ _ i j hi hj]
  have hd := mat_inverse_detmat_eq A
  generalize mat_inverse_detmat A = det at *
  generalize mat_inverse_value A res = V at *
  interval_cases i <;> interval_cases j <;>
    simp only [Nat.mul_zero, Nat.mul_one, Nat.add_zero, Nat.zero_add, Nat.reduceAdd,
      Nat.reduceMul, c0, c1, c2, c3, c4, c5, c6, c7, c8, if_true, Nat.reduceEqDiff, if_false,
      mul_div_assoc', div_mul_eq_mul_div, ← add_div, div_eq_iff hdet] <;>
    constructor <;> rw [hd] <;> ring

/-- C6 at `A = diag(2, 1, 1)`: `mat_inverse` succeeds and entry `(0, 0)` of both
products is `1`. -/
theorem mat_inverse_round_trip_witness :
    ∃ B : Buf ℚ, mat_inverse (mat_set_diag fresh 2 1 1) fresh = .ok B
      ∧ mat_mat_mult (mat_set_diag fresh 2 1 1) B fresh (3 * 0 + 0) = (if 0 = 0 then 1 else 0)
      ∧ mat_mat_mult B (mat_set_diag fresh 2 1 1) fresh (3 * 0 + 0) = (if 0 = 0 then 1 else 0) := by
  have hd : mat_inverse_detmat (mat_set_diag (fresh : Buf ℚ) 2 1 1) = 2 := by
    simp [mat_inverse_detmat, mat_set_diag, store_apply]
  have hok := mat_inverse_of_one_le_det (mat_set_diag (fresh : Buf ℚ) 2 1 1) fresh
    (by rw [hd, abs_of_pos (by norm_num)]; norm_num)
    (by rw [hd, abs_of_pos (by norm_num)]; norm_num)
  exact ⟨_, hok, mat_inverse_round_trip _ fresh _ fresh hok 0 0 (by decide) (by decide)⟩

/-- The cells of a 3x3 object after `mat_set_diag`. -/
theorem mat_set_diag_apply (m : Buf K) (a b c : K) (x : Nat) :
    mat_set_diag m a b c x
      = if x = 0 then a else if x = 4 then b else if x = 8 then c
        else if x < 9 then 0 else m x := by
  simp only [mat_set_diag, store_apply]
  by_cases h9 : x < 9
  · interval_cases x <;> simp
  · have : ∀ k, k < 9 → x ≠ k := by intro k hk; omega
    simp [this, h9]

/-- The 3x3 transpose, cell `(i, j)`. -/
theorem mat_transpose_entry (mat res : Buf K) (i j : Nat) (hi : i < 3) (hj : j < 3) :
    mat_transpose mat res (3 * i + j) = mat (3 * j + i) := by
  rw [mat_transpose, mat_transpose_spec, if_pos (by omega)]
  have h1 : (3 * i + j) % 3 = j := by omega
  have h2 : (3 * i + j) / 3 = i := by omega
  rw [h1, h2]

/-- A 3x3 block copied into a 6x6 array by `_mat_copy`: cell `(i, j)` of the
array afterwards. -/
theorem mat_copy_3x3_into_6x6 (mat res : Buf K) (pi pj i j : Nat)
    (hpj : pj + 3 ≤ 6) (hi : i < 6) (hj : j < 6) :
    _mat_copy mat res 3 3 6 6 pi pj (6 * i + j)
      = if pi ≤ i ∧ i < pi + 3 ∧ pj ≤ j ∧ j < pj + 3 then mat (3 * (i - pi) + (j - pj))
        else res (6 * i + j) := by
  by_cases hin : pi ≤ i ∧ i < pi + 3 ∧ pj ≤ j ∧ j < pj + 3
  · rw [if_pos hin]
    have h := mat_copy_entry mat res 3 3 6 6 pi pj (by decide) (i - pi) (j - pj)
      (by omega) (by omega)
    have e : 6 * (i - pi + pi) + (j - pj) + pj = 6 * i + j := by omega
    rw [e] at h
    exact h
  · rw [if_neg hin]
    apply mat_copy_frame
    intro i' hi' j' hj'
    omega

/-- The array `F` built by `eskf_compute_error` is the matrix of the
specification. -/
theorem eskf_compute_error_F_entry (dq : Buf K) (dt : K) (i j : Nat) (hi : i < 6) (hj : j < 6) :
    eskf_compute_error_F dq dt (6 * i + j) = spec_F dq dt i j := by
  simp only [eskf_compute_error_F]
  rw [mat_copy_3x3_into_6x6 _ _ _ _ _ _ (by decide) hi hj,
    mat_copy_3x3_into_6x6 _ _ _ _ _ _ (by decide) hi hj,
    mat_copy_3x3_into_6x6 _ _ _ _ _ _ (by decide) hi hj,
    mat_copy_3x3_into_6x6 _ _ _ _ _ _ (by decide) hi hj]
  simp only [mat_set_diag_apply, spec_F]
  interval_cases i <;> interval_cases j <;>
    simp [mat_transpose, mat_transpose_spec, fresh]

/-- The array `Q` after the loop of `eskf_compute_error` is the matrix of the
specification, whatever `Q` held before. -/
theorem eskf_compute_error_Q_entry (dt : K) (Q : Buf K) (i j : Nat) (hi : i < 6) (hj : j < 6) :
    eskf_compute_error_Q dt Q (6 * i + j) = spec_Q dt i j := by
  simp only [eskf_compute_error_Q, forLoop, iterate, Nat.sub_zero, Nat.zero_add]
  simp only [Nat.reduceAdd, Nat.reduceMul, Nat.reduceEqDiff, and_self, and_false, false_and,
    if_true, if_false, Nat.zero_mul, Nat.one_mul, OfNat.ofNat_ne_zero, one_ne_zero, zero_ne_one]
  rw [mat_copy_3x3_into_6x6 _ _ _ _ _ _ (by decide) hi hj,
    mat_copy_3x3_into_6x6 _ _ _ _ _ _ (by decide) hi hj,
    mat_copy_3x3_into_6x6 _ _ _ _ _ _ (by decide) hi hj,
    mat_copy_3x3_into_6x6 _ _ _ _ _ _ (by decide) hi hj]
  simp only [mat_set_diag_apply, spec_Q]
  interval_cases i <;> interval_cases j <;>
    simp [mul_pow]

/-- The norm computed by `vec_norm`. -/
theorem vec_norm_eq (L : Libm K) (v : Buf K) :
    vec_norm L v = L.sqrt (v 0 ^ 2 + v 1 ^ 2 + v 2 ^ 2) := by
  simp [vec_norm, forLoop, iterate]

/-- The cells written by `vec_cons_mult` into a separate output. -/
theorem vec_cons_mult_some (a : K) (v r : Buf K) (x : Nat) :
    vec_cons_mult a v (some r) x = if x < 3 then v x * a else r x := by
  simp only [vec_cons_mult, forLoop, Nat.sub_zero]
  exact iterate_fill (fun i => v i * a) 3 r x

/-- With a square root that is non-zero on positive arguments, `vec_to_quat`
returns a quaternion for every axis that has a non-zero component. -/
theorem vec_to_quat_ok (L : Libm K) (axis res : Buf K)
    (hsqrt : ∀ x : K, 0 < x → L.sqrt x ≠ 0) (hne : ∃ i, i < 3 ∧ axis i ≠ 0) :
    vec_norm L axis ≠ 0
    ∧ vec_to_quat L axis res
      = .ok (axis_rotation_to_quat L (vec_cons_mult (1 / vec_norm L axis) axis (some fresh))
          (vec_norm L axis) res) := by
  have hrot : vec_norm L axis ≠ 0 := by
    rw [vec_norm_eq]
    apply hsqrt
    obtain ⟨i, hi, hv⟩ := hne
    have h0 := sq_nonneg (axis 0)
    have h1 := sq_nonneg (axis 1)
    have h2 := sq_nonneg (axis 2)
    have hp : 0 < axis i ^ 2 := by positivity
    interval_cases i <;> linarith
  refine ⟨hrot, ?_⟩
  simp only [vec_to_quat, if_neg hrot]

/-- C2: for `omega * dt` with a non-zero component (and a square root that is
non-zero on positive arguments), `eskf_compute_error` returns, the array `Q` it
leaves is the block-diagonal process noise of the specification whatever `Q`
held, and the array `P` it leaves is `F * P_old * transpose F + Q`, with `F`
the state-transition matrix of the specification for
`dq = vec_to_quat (omega * dt)`. -/
theorem eskf_compute_error_covariance (L : Libm K) (omega P Q : Buf K) (dt : K)
    (hsqrt : ∀ x : K, 0 < x → L.sqrt x ≠ 0) (hne : ∃ i, i < 3 ∧ omega i * dt ≠ 0) :
    ∃ dq P1 Q1,
      vec_to_quat L (vec_cons_mult dt omega (some fresh)) fresh = .ok dq
      ∧ eskf_compute_error L omega dt P Q = .ok (P1, Q1)
      ∧ (∀ i j, i < 6 → j < 6 → Q1 (6 * i + j) = spec_Q dt i j)
      ∧ (∀ i j, i < 6 → j < 6 →
          P1 (6 * i + j)
            = (∑ k ∈ Finset.range 6, ∑ l ∈ Finset.range 6,
                spec_F dq dt i k * P (6 * k + l) * spec_F dq dt j l)
              + spec_Q dt i j) := by
  have hne2 : ∃ i, i < 3 ∧ vec_cons_mult dt omega (some fresh) i ≠ 0 := by
    obtain ⟨i, hi, hv⟩ := hne
    exact ⟨i, hi, by rw [vec_cons_mult_some, if_pos hi]; exact hv⟩
  obtain ⟨-, hq⟩ := vec_to_quat_ok L (vec_cons_mult dt omega (some fresh)) fresh hsqrt hne2
  generalize axis_rotation_to_quat L _ _ _ = dq at hq
  have hE : eskf_compute_error L omega dt P Q
      = .ok (_mat_mat_sum
          (_mat_mat_mult (_mat_mat_mult (eskf_compute_error_F dq dt) P fresh 6 6 6)
            (_mat_transpose (eskf_compute_error_F dq dt) fresh 6 6) fresh 6 6 6)
          (eskf_compute_error_Q dt Q) P 6 6, eskf_compute_error_Q dt Q) := by
    simp only [eskf_compute_error, hq]
  refine ⟨dq, _, _, hq, hE, ?_, ?_⟩
  · intro i j hi hj
    exact eskf_compute_error_Q_entry dt Q i j hi hj
  · intro i j hi hj
    rw [mat_mat_sum_spec, if_pos (by omega), eskf_compute_error_Q_entry dt Q i j hi hj,
      mat_mat_mult_spec, if_pos (by omega)]
    congr 1
    have h1 : (6 * i + j) / 6 = i := by omega
    have h2 : (6 * i + j) % 6 = j := by omega
    rw [h1, h2, Finset.sum_comm]
    apply Finset.sum_congr rfl
    intro l hl
    have hl6 : l < 6 := Finset.mem_range.mp hl
    rw [mat_mat_mult_spec, if_pos (by omega), mat_transpose_spec, if_pos (by omega)]
    have h3 : (i * 6 + l) / 6 = i := by omega
    have h4 : (i * 6 + l) % 6 = l := by omega
    have h5 : (l * 6 + j) / 6 = l := by omega
    have h6 : (l * 6 + j) % 6 = j := by omega
    rw [h3, h4, h5, h6, Finset.sum_mul]
    apply Finset.sum_congr rfl
    intro k hk
    have hk6 : k < 6 := Finset.mem_range.mp hk
    rw [Nat.mul_comm i 6, Nat.mul_comm k 6, eskf_compute_error_F_entry dq dt i k hi hk6,
      eskf_compute_error_F_entry dq dt j l hj hl6]

/-- C2 at `omega = [0, 0, 1]`, `dt = 1`, `P = Q = 0`, over the reals with the
real square root, cosine and sine. -/
theorem eskf_compute_error_covariance_witness :
    ∃ dq P1 Q1,
      vec_to_quat (⟨Real.sqrt, Real.cos, Real.sin⟩ : Libm ℝ)
          (vec_cons_mult 1 (store fresh 2 1) (some fresh)) fresh = .ok dq
      ∧ eskf_compute_error (⟨Real.sqrt, Real.cos, Real.sin⟩ : Libm ℝ)
          (store fresh 2 1) 1 fresh fresh = .ok (P1, Q1)
      ∧ (∀ i j, i < 6 → j < 6 → Q1 (6 * i + j) = spec_Q 1 i j)
      ∧ (∀ i j, i < 6 → j < 6 →
          P1 (6 * i + j)
            = (∑ k ∈ Finset.range 6, ∑ l ∈ Finset.range 6,
                spec_F dq 1 i k * (fresh : Buf ℝ) (6 * k + l) * spec_F dq 1 j l)
              + spec_Q 1 i j) :=
  eskf_compute_error_covariance ⟨Real.sqrt, Real.cos, Real.sin⟩ (store fresh 2 1) fresh fresh 1
    (fun _ hx => (Real.sqrt_pos.mpr hx).ne') ⟨2, by decide, by simp [store_apply]⟩

/-- The array `H` that `eskf_update_mag` builds: cell 0 is the uninitialised
`temp.m[0][0]`, cells 1 and 2 come from `mag_b`, cells 3 to 11 are zero and
cells 12 to 17 are never written. -/
theorem eskf_update_mag_H_apply (mag_b temp H : Buf K) (x : Nat) :
    eskf_update_mag_H mag_b temp H x
      = if x = 0 then temp 0 else if x = 1 then -1 * mag_b 2 else if x = 2 then mag_b 1
        else if x < 12 then 0 else H x := by
  simp only [eskf_update_mag_H]
  rw [mat_copy_spec _ _ _ _ _ _ _ _ (by decide), mat_copy_spec _ _ _ _ _ _ _ _ (by decide)]
  by_cases h12 : x < 12
  · interval_cases x <;> simp [mat_set_diag_apply, mat_skew, store_apply]
  · rw [if_neg (by intro h; omega), if_neg (by intro h; omega),
      if_neg (by omega), if_neg (by omega), if_neg (by omega), if_neg h12]

/-- The `vec_normalize` call with `res == NULL` on a vector of non-zero norm. -/
theorem vec_normalize_none_apply (L : Libm K) (v : Buf K) (h : vec_norm L v ≠ 0) (x : Nat) :
    (vec_normalize L v none).2 x = if x < 3 then v x * (1 / vec_norm L v) else v x := by
  simp only [vec_normalize, if_neg h, forLoop, Nat.sub_zero]
  exact iterate_inplace (fun t => t * (1 / vec_norm L v)) 3 v x

/-- Component `i` of a 3x3 matrix-vector product computed by `mat_vec_mult`. -/
theorem mat_vec_mult_entry (m v out : Buf K) (i : Nat) (hi : i < 3) :
    mat_vec_mult m v out i = m (3 * i) * v 0 + m (3 * i + 1) * v 1 + m (3 * i + 2) * v 2 := by
  rw [mat_vec_mult, mat_vec_mult_spec, if_pos hi]
  simp only [Finset.sum_range_succ, Finset.sum_range_zero, Nat.mul_comm i 3]
  norm_num

/-- C3, evaluated on the code over the reals: for `q = [0,0,0,1]` and
`mag_i = [0,0,1]` the predicted field is `mag_b = [0,0,1]`, so that
`skew(mag_b)[1][0] = 1`; the array `H` has `H[1][0] = 0`, because the copies
index the 3x6 array with stride 3. `H[0][0]` and `H[2][*]` are what the
uninitialised locals held (here zero). -/
theorem eskf_update_mag_H_row_one_is_zero :
    eskf_update_mag_mag_b (⟨Real.sqrt, Real.cos, Real.sin⟩ : Libm ℝ)
        (store fresh 2 1) (store fresh 3 1) 2 = 1
    ∧ mat_skew (eskf_update_mag_mag_b (⟨Real.sqrt, Real.cos, Real.sin⟩ : Libm ℝ)
        (store fresh 2 1) (store fresh 3 1)) fresh (3 * 1 + 0) = 1
    ∧ eskf_update_mag_H (eskf_update_mag_mag_b (⟨Real.sqrt, Real.cos, Real.sin⟩ : Libm ℝ)
        (store fresh 2 1) (store fresh 3 1)) fresh fresh (6 * 1 + 0) = 0 := by
  have hn : vec_norm (⟨Real.sqrt, Real.cos, Real.sin⟩ : Libm ℝ) (store fresh 2 1) = 1 := by
    rw [vec_norm_eq]; simp [store_apply, fresh]
  have hb : eskf_update_mag_mag_b (⟨Real.sqrt, Real.cos, Real.sin⟩ : Libm ℝ)
        (store fresh 2 1) (store fresh 3 1) 2 = 1 := by
    simp only [eskf_update_mag_mag_b]
    rw [mat_vec_mult_entry _ _ _ 2 (by decide)]
    rw [vec_normalize_none_apply _ _ (by rw [hn]; norm_num),
      vec_normalize_none_apply _ _ (by rw [hn]; norm_num),
      vec_normalize_none_apply _ _ (by rw [hn]; norm_num), hn]
    simp [quat_to_dcm, store_apply, fresh]
  refine ⟨hb, ?_, ?_⟩
  · simp only [mat_skew, store_apply]
    simpa using hb
  · rw [eskf_update_mag_H_apply]; simp

/-- Cell `(i, k)` of the 6x3 array `PHt` of `eskf_update_mag`. -/
theorem eskf_update_mag_PHt_entry (P H : Buf K) (i k : Nat) (hi : i < 6) (hk : k < 3) :
    eskf_update_mag_PHt P H (3 * i + k)
      = ∑ j ∈ Finset.range 6, P (6 * i + j) * H (6 * k + j) := by
  simp only [eskf_update_mag_PHt]
  rw [mat_mat_mult_spec, if_pos (by omega)]
  have h1 : (3 * i + k) / 3 = i := by omega
  have h2 : (3 * i + k) % 3 = k := by omega
  rw [h1, h2]
  apply Finset.sum_congr rfl
  intro j hj
  have hj6 : j < 6 := Finset.mem_range.mp hj
  rw [mat_transpose_spec, if_pos (by omega)]
  have h3 : (j * 3 + k) % 3 = k := by omega
  have h4 : (j * 3 + k) / 3 = j := by omega
  rw [h3, h4, Nat.mul_comm i 6]

/-- Cell `(a, b)` of the matrix `S` of `eskf_update_mag`. -/
theorem eskf_update_mag_S_entry (P H R : Buf K) (a b : Nat) (ha : a < 3) (hb : b < 3) :
    eskf_update_mag_S P H R (3 * a + b)
      = (∑ j ∈ Finset.range 6, H (6 * a + j) * eskf_update_mag_PHt P H (3 * j + b))
        + eskf_update_mag_R R (3 * a + b) := by
  simp only [eskf_update_mag_S, mat_sum]
  rw [mat_mat_sum_spec, if_pos (by omega), mat_mat_mult_spec, if_pos (by omega)]
  have h1 : (3 * a + b) / 3 = a := by omega
  have h2 : (3 * a + b) % 3 = b := by omega
  rw [h1, h2]
  congr 1
  apply Finset.sum_congr rfl
  intro j _
  rw [Nat.mul_comm a 6, Nat.mul_comm j 3]

/-- Cell `(i, k)` of the 6x3 gain of `eskf_update_mag`, from the inverse `SI`. -/
theorem gain_entry (PHt SI out : Buf K) (i k : Nat) (hi : i < 6) (hk : k < 3) :
    _mat_mat_mult PHt SI out 6 3 3 (3 * i + k)
      = ∑ j ∈ Finset.range 3, PHt (3 * i + j) * SI (3 * j + k) := by
  rw [mat_mat_mult_spec, if_pos (by omega)]
  have h1 : (3 * i + k) / 3 = i := by omega
  have h2 : (3 * i + k) % 3 = k := by omega
  rw [h1, h2]
  apply Finset.sum_congr rfl
  intro j _
  rw [Nat.mul_comm i 3, Nat.mul_comm j 3]

/-- Component `i` of the error state `dx` of `eskf_update_mag`. -/
theorem eskf_update_mag_dx_entry (gain mag_sensor mag_b : Buf K) (i : Nat) (hi : i < 6) :
    eskf_update_mag_dx gain mag_sensor mag_b i
      = ∑ j ∈ Finset.range 3, gain (3 * i + j) * (mag_sensor j + mag_b j * -1) := by
  simp only [eskf_update_mag_dx]
  rw [mat_mat_mult_spec, if_pos (by omega)]
  apply Finset.sum_congr rfl
  intro j hj
  have hj3 : j < 3 := Finset.mem_range.mp hj
  have h1 : i / 1 * 3 + j = 3 * i + j := by rw [Nat.div_one, Nat.mul_comm]
  have h2 : j * 1 + i % 1 = j := by omega
  rw [h1, h2]
  congr 1
  simp only [vec_sum, forLoop, Nat.sub_zero]
  rw [iterate_fill (fun i => mag_sensor i + vec_cons_mult (-1) mag_b (some fresh) i) 3 fresh j,
    if_pos hj3, vec_cons_mult_some, if_pos hj3]

/-- Cell `(i, j)` of the local array `P1` of `eskf_update_mag`. -/
theorem eskf_update_mag_P1_entry (gain H P : Buf K) (i j : Nat) (hi : i < 6) (hj : j < 6) :
    eskf_update_mag_P1 gain H P (6 * i + j)
      = ∑ k ∈ Finset.range 6,
          ((if i = k then 1 else 0)
            + (∑ a ∈ Finset.range 3, gain (3 * i + a) * H (6 * a + k)) * -1) * P (6 * k + j) := by
  simp only [eskf_update_mag_P1]
  rw [mat_mat_mult_spec, if_pos (by omega)]
  have h1 : (6 * i + j) / 6 = i := by omega
  have h2 : (6 * i + j) % 6 = j := by omega
  rw [h1, h2]
  apply Finset.sum_congr rfl
  intro k hk
  have hk6 : k < 6 := Finset.mem_range.mp hk
  have h3 : (i * 6 + k) / 6 = i := by omega
  have h4 : (i * 6 + k) % 6 = k := by omega
  rw [mat_mat_sum_spec, if_pos (by omega), mat_cons_mult_none_spec, if_pos (by omega),
    mat_mat_mult_spec, if_pos (by omega), mat_set_diag_spec,
    if_pos (show i * 6 + k < 6 * 6 by omega), h3, h4, Nat.mul_comm k 6]
  congr 3
  apply Finset.sum_congr rfl
  intro a _
  rw [Nat.mul_comm i 3, Nat.mul_comm a 6]

/-- When rows 1 and 2 of `H` are zero, `PHt` has the single non-zero column 0. -/
theorem PHt_of_row0 (P H : Buf K) (hH : ∀ x, 6 ≤ x → x < 18 → H x = 0)
    (i k : Nat) (hi : i < 6) (hk : k < 3) :
    eskf_update_mag_PHt P H (3 * i + k) = if k = 0 then row0_Ph P H i else 0 := by
  rw [eskf_update_mag_PHt_entry P H i k hi hk]
  by_cases h0 : k = 0
  · subst h0
    simp only [if_true, row0_Ph, Nat.mul_zero, Nat.zero_add]
  · rw [if_neg h0]
    apply Finset.sum_eq_zero
    intro j hj
    have hj6 : j < 6 := Finset.mem_range.mp hj
    rw [hH (6 * k + j) (by omega) (by omega), mul_zero]

/-- When rows 1 and 2 of `H` are zero, `S` is diagonal. -/
theorem S_of_row0 (P H R : Buf K) (hH : ∀ x, 6 ≤ x → x < 18 → H x = 0)
    (a b : Nat) (ha : a < 3) (hb : b < 3) :
    eskf_update_mag_S P H R (3 * a + b)
      = (if a = 0 ∧ b = 0 then row0_hPh P H else 0)
        + (if a = b then std_rn_mag ^ 2 else 0) := by
  rw [eskf_update_mag_S_entry P H R a b ha hb]
  congr 1
  · by_cases h0 : a = 0 ∧ b = 0
    · obtain ⟨rfl, rfl⟩ := h0
      simp only [and_self, if_true, row0_hPh, Nat.mul_zero, Nat.zero_add]
      apply Finset.sum_congr rfl
      intro j hj
      have := PHt_of_row0 P H hH j 0 (Finset.mem_range.mp hj) (by decide)
      simp only [Nat.add_zero, if_true] at this
      rw [Nat.add_zero, this]
    · rw [if_neg h0]
      apply Finset.sum_eq_zero
      intro j hj
      have hj6 : j < 6 := Finset.mem_range.mp hj
      by_cases ha0 : a = 0
      · have hb0 : b ≠ 0 := fun h => h0 ⟨ha0, h⟩
        rw [PHt_of_row0 P H hH j b hj6 hb, if_neg hb0, mul_zero]
      · rw [hH (6 * a + j) (by omega) (by omega), zero_mul]
  · simp only [eskf_update_mag_R, mat_set_diag_apply]
    interval_cases a <;> interval_cases b <;> simp

/-- When rows 1 and 2 of `H` are zero, the determinant that `mat_inverse`
tests is `(h * P * transpose h + r) * r^2`, with `r = std_rn_mag^2`. -/
theorem detmat_of_row0 (P H R : Buf K) (hH : ∀ x, 6 ≤ x → x < 18 → H x = 0) :
    mat_inverse_detmat (eskf_update_mag_S P H R)
      = (row0_hPh P H + std_rn_mag ^ 2) * (std_rn_mag ^ 2) ^ 2 := by
  have e := fun a b ha hb => S_of_row0 P H R hH a b ha hb
  have e00 := e 0 0 (by decide) (by decide)
  have e01 := e 0 1 (by decide) (by decide)
  have e02 := e 0 2 (by decide) (by decide)
  have e10 := e 1 0 (by decide) (by decide)
  have e11 := e 1 1 (by decide) (by decide)
  have e12 := e 1 2 (by decide) (by decide)
  have e20 := e 2 0 (by decide) (by decide)
  have e21 := e 2 1 (by decide) (by decide)
  have e22 := e 2 2 (by decide) (by decide)
  norm_num at e00 e01 e02 e10 e11 e12 e20 e21 e22
  rw [mat_inverse_detmat_eq, e00, e01, e02, e10, e11, e12, e20, e21, e22]
  ring

/-- The measurement variance `std_rn_mag^2` is not zero. -/
theorem std_rn_mag_sq_ne_zero : ((std_rn_mag : K) ^ 2) ≠ 0 := by
  simp only [std_rn_mag]; norm_num

/-- When rows 1 and 2 of `H` are zero and the inversion succeeds, the gain has
the single non-zero column 0, `P * h / (h * P * transpose h + r)`. -/
theorem K_of_row0 [FloorRing K] (P H R gain : Buf K)
    (hH : ∀ x, 6 ≤ x → x < 18 → H x = 0) (hok : eskf_update_mag_K P H R = .ok gain)
    (i k : Nat) (hi : i < 6) (hk : k < 3) :
    gain (3 * i + k)
      = if k = 0 then row0_Ph P H i / (row0_hPh P H + std_rn_mag ^ 2) else 0 := by
  simp only [eskf_update_mag_K] at hok
  split at hok
  · cases hok
  · rename_i SI hSI
    injection hok with hok
    subst hok
    obtain ⟨hdet, rfl⟩ := mat_inverse_ok_imp _ _ _ hSI
    rw [detmat_of_row0 P H R hH] at hdet
    obtain ⟨c0, c1, c2, -, -, -, -, -, -⟩ :=
      mat_inverse_value_cells (eskf_update_mag_S P H R) fresh
    rw [detmat_of_row0 P H R hH] at c0 c1 c2
    have e := fun a b ha hb => S_of_row0 P H R hH a b ha hb
    have e01 := e 0 1 (by decide) (by decide)
    have e02 := e 0 2 (by decide) (by decide)
    have e11 := e 1 1 (by decide) (by decide)
    have e12 := e 1 2 (by decide) (by decide)
    have e21 := e 2 1 (by decide) (by decide)
    have e22 := e 2 2 (by decide) (by decide)
    norm_num at e01 e02 e11 e12 e21 e22
    simp only [e01, e02, e11, e12, e21, e22] at c0 c1 c2
    rw [gain_entry _ _ _ i k hi hk]
    have p0 := PHt_of_row0 P H hH i 0 hi (by decide)
    have p1 := PHt_of_row0 P H hH i 1 hi (by decide)
    have p2 := PHt_of_row0 P H hH i 2 hi (by decide)
    norm_num at p0 p1 p2
    simp only [Finset.sum_range_succ, Finset.sum_range_zero, Nat.mul_zero, Nat.add_zero,
      Nat.mul_one, Nat.zero_add, p0, p1, p2, zero_mul, add_zero, Nat.reduceMul]
    have hr := std_rn_mag_sq_ne_zero (K := K)
    have hs : row0_hPh P H + (std_rn_mag : K) ^ 2 ≠ 0 := by
      intro h0; apply hdet; rw [h0, zero_mul]
    interval_cases k
    · simp only [if_true, c0]
      field_simp
      ring
    · simp only [c1]; norm_num
    · simp only [c2]; norm_num

/-- When rows 1 and 2 of `H` are zero, the error state is the first column of
the gain times the first component of the innovation. -/
theorem dx_of_row0 [FloorRing K] (P H R gain mag_sensor mag_b : Buf K)
    (hH : ∀ x, 6 ≤ x → x < 18 → H x = 0) (hok : eskf_update_mag_K P H R = .ok gain)
    (i : Nat) (hi : i < 6) :
    eskf_update_mag_dx gain mag_sensor mag_b i
      = row0_Ph P H i / (row0_hPh P H + std_rn_mag ^ 2) * (mag_sensor 0 + mag_b 0 * -1) := by
  rw [eskf_update_mag_dx_entry _ _ _ i hi]
  have k0 := K_of_row0 P H R gain hH hok i 0 hi (by decide)
  have k1 := K_of_row0 P H R gain hH hok i 1 hi (by decide)
  have k2 := K_of_row0 P H R gain hH hok i 2 hi (by decide)
  norm_num at k0 k1 k2
  simp only [Finset.sum_range_succ, Finset.sum_range_zero, Nat.add_zero, zero_add, k0, k1, k2,
    zero_mul, add_zero]

/-- When rows 1 and 2 of `H` are zero, the local `P1` is `P` minus the rank-one
term `(P * h) * (h * P) / (h * P * transpose h + r)`. -/
theorem P1_of_row0 [FloorRing K] (P H R gain : Buf K)
    (hH : ∀ x, 6 ≤ x → x < 18 → H x = 0) (hok : eskf_update_mag_K P H R = .ok gain)
    (i j : Nat) (hi : i < 6) (hj : j < 6) :
    eskf_update_mag_P1 gain H P (6 * i + j)
      = P (6 * i + j)
        - row0_Ph P H i / (row0_hPh P H + std_rn_mag ^ 2)
          * ∑ k ∈ Finset.range 6, H k * P (6 * k + j) := by
  rw [eskf_update_mag_P1_entry _ _ _ i j hi hj]
  have k0 := K_of_row0 P H R gain hH hok i 0 hi (by decide)
  have k1 := K_of_row0 P H R gain hH hok i 1 hi (by decide)
  have k2 := K_of_row0 P H R gain hH hok i 2 hi (by decide)
  norm_num at k0 k1 k2
  have hin : ∀ k, k < 6 →
      (∑ a ∈ Finset.range 3, gain (3 * i + a) * H (6 * a + k))
        = row0_Ph P H i / (row0_hPh P H + std_rn_mag ^ 2) * H k := by
    intro k hk
    simp only [Finset.sum_range_succ, Finset.sum_range_zero, Nat.add_zero, zero_add, k0, k1, k2,
      zero_mul, add_zero, Nat.mul_zero, Nat.zero_add]
  have hsum : ∀ k ∈ Finset.range 6,
      ((if i = k then (1 : K) else 0)
        + (∑ a ∈ Finset.range 3, gain (3 * i + a) * H (6 * a + k)) * -1) * P (6 * k + j)
      = (if i = k then P (6 * k + j) else 0)
        - row0_Ph P H i / (row0_hPh P H + std_rn_mag ^ 2) * (H k * P (6 * k + j)) := by
    intro k hk
    rw [hin k (Finset.mem_range.mp hk)]
    by_cases hik : i = k <;> simp [hik] <;> ring
  rw [Finset.sum_congr rfl hsum, Finset.sum_sub_distrib, ← Finset.mul_sum,
    Finset.sum_ite_eq (Finset.range 6) i, if_pos (Finset.mem_range.mpr hi)]

/-- The check of `mat_inverse` on `S` passes when `1 ≤ |detmat| < 2^31`. -/
theorem K_ok [FloorRing K] (P H R : Buf K)
    (h1 : 1 ≤ |mat_inverse_detmat (eskf_update_mag_S P H R)|)
    (h2 : |mat_inverse_detmat (eskf_update_mag_S P H R)| < 2147483648) :
    eskf_update_mag_K P H R
      = .ok (_mat_mat_mult (eskf_update_mag_PHt P H)
          (mat_inverse_value (eskf_update_mag_S P H R) fresh) fresh 6 3 3) := by
  simp only [eskf_update_mag_K, mat_inverse_of_one_le_det _ fresh h1 h2]

/-- The injection step returns when the attitude part of `dx` has a non-zero
component; the bias receives the last three components of `dx`. -/
theorem inject_ok (L : Libm K) (dx q wb : Buf K)
    (hsqrt : ∀ x : K, 0 < x → L.sqrt x ≠ 0) (hne : ∃ i, i < 3 ∧ dx i ≠ 0) :
    ∃ dq q1 wb1,
      eskf_update_mag_inject L dx q wb = .ok (q1, wb1)
      ∧ (∀ i, i < 4 → q1 i = quat_mult q dq fresh i)
      ∧ (∀ i, i < 3 → wb1 i = wb i + dx (3 + i)) := by
  have hne2 : ∃ i, i < 3 ∧ store (store (store (fresh : Buf K) 0 (dx 0)) 1 (dx 1)) 2 (dx 2) i ≠ 0 := by
    obtain ⟨i, hi, hv⟩ := hne
    refine ⟨i, hi, ?_⟩
    interval_cases i <;> simpa [store_apply] using hv
  obtain ⟨-, hq⟩ := vec_to_quat_ok L _ fresh hsqrt hne2
  generalize axis_rotation_to_quat L _ _ _ = dq at hq
  have hE : eskf_update_mag_inject L dx q wb
      = .ok (forLoop 0 4 (fun i (s : Buf K × Buf K) =>
          let q2 := store s.1 i (quat_mult q dq fresh i)
          if i > 2 then (q2, s.2)
          else (q2, store s.2 i
            (vec_sum wb (store (store (store fresh 0 (dx 3)) 1 (dx 4)) 2 (dx 5)) fresh i)))
          (q, wb)) := by
    simp only [eskf_update_mag_inject, hq]
  rw [hE]
  refine ⟨dq, _, _, rfl, ?_, ?_⟩
  · intro i hi
    simp only [forLoop, iterate, Nat.sub_zero, Nat.zero_add]
    interval_cases i <;> simp [store_apply]
  · intro i hi
    simp only [forLoop, iterate, Nat.sub_zero, Nat.zero_add]
    interval_cases i <;> simp [store_apply, vec_sum, forLoop, iterate]

/-- A call of `eskf_update_mag` returns when the gain exists and the attitude
part of the error state has a non-zero component; `P` is as before the call,
`*R` is `std_rn_mag^2 * I3`, the bias has received the last three components of
`dx` and `q` the product `quat_mult (q, dq)`. -/
theorem eskf_update_mag_returns [FloorRing K] (L : Libm K)
    (mag_sensor mag_i P R q wb temp0 H0 gain : Buf K)
    (hK : eskf_update_mag_K P
      (eskf_update_mag_H (eskf_update_mag_mag_b L mag_i q) temp0 H0) R = .ok gain)
    (hsqrt : ∀ x : K, 0 < x → L.sqrt x ≠ 0)
    (hne : ∃ i, i < 3 ∧
      eskf_update_mag_dx gain mag_sensor (eskf_update_mag_mag_b L mag_i q) i ≠ 0) :
    ∃ dq q1 wb1,
      eskf_update_mag L mag_sensor mag_i P R q wb temp0 H0
        = .returned ⟨P, eskf_update_mag_R R, q1, wb1⟩
      ∧ (∀ i, i < 4 → q1 i = quat_mult q dq fresh i)
      ∧ (∀ i, i < 3 → wb1 i
          = wb i + eskf_update_mag_dx gain mag_sensor (eskf_update_mag_mag_b L mag_i q) (3 + i)) := by
  obtain ⟨dq, q1, wb1, hinj, hq1, hwb1⟩ := inject_ok L _ q wb hsqrt hne
  refine ⟨dq, q1, wb1, ?_, hq1, hwb1⟩
  simp only [eskf_update_mag, hK, hinj]

/-- No path through `eskf_update_mag` writes to `P`: whether the call returns
or stops, the array is as it was before the call. -/
theorem eskf_update_mag_P_unchanged [FloorRing K] (L : Libm K)
    (mag_sensor mag_i P R q wb temp0 H0 : Buf K) :
    (∀ m, eskf_update_mag L mag_sensor mag_i P R q wb temp0 H0 = .returned m → m.P = P)
    ∧ (∀ flt m, eskf_update_mag L mag_sensor mag_i P R q wb temp0 H0 = .stopped flt m
        → m.P = P) := by
  constructor
  · intro m h
    simp only [eskf_update_mag] at h
    split at h
    · cases h
    · split at h
      · cases h
      · injection h with h; rw [← h]
  · intro flt m h
    simp only [eskf_update_mag] at h
    split at h
    · injection h with _ h; rw [← h]
    · split at h
      · injection h with _ h; rw [← h]
      · cases h

/-- C1, evaluated on the code over the reals: `q = [0,0,0,1]`, `mag_i = [0,0,1]`,
`mag_sensor = [1,0,1]`, `wb = 0`, `P` zero but for `P[1][1] = 10^12`, the
uninitialised locals holding zeros. The call returns; the array `P` of the
caller still has `P[1][1] = 10^12`, whereas the product `(I6 - K*H) * P` that the
code computes into the local `P1` has `P1[1][1] = 10^12 / (10^18 + 1)`: `P1` is
never copied to `P`. -/
theorem eskf_update_mag_leaves_P :
    ∃ gain m,
      eskf_update_mag_K (example_P : Buf ℝ)
          (eskf_update_mag_H
            (eskf_update_mag_mag_b ⟨Real.sqrt, Real.cos, Real.sin⟩ example_mag_i example_q)
            fresh fresh) fresh = .ok gain
      ∧ eskf_update_mag ⟨Real.sqrt, Real.cos, Real.sin⟩ example_mag_sensor example_mag_i
          (example_P : Buf ℝ) fresh example_q fresh fresh fresh = .returned m
      ∧ m.P (6 * 1 + 1) = 1000000000000
      ∧ eskf_update_mag_P1 gain
          (eskf_update_mag_H
            (eskf_update_mag_mag_b ⟨Real.sqrt, Real.cos, Real.sin⟩ example_mag_i example_q)
            fresh fresh) example_P (6 * 1 + 1)
        = 1000000000000 / 1000000000000000001 := by
  have hn : vec_norm (⟨Real.sqrt, Real.cos, Real.sin⟩ : Libm ℝ) example_mag_i = 1 := by
    rw [vec_norm_eq]; simp [example_mag_i, store_apply, fresh]
  have hmb : ∀ x, x < 3 →
      eskf_update_mag_mag_b (⟨Real.sqrt, Real.cos, Real.sin⟩ : Libm ℝ) example_mag_i example_q x
        = if x = 2 then 1 else 0 := by
    intro x hx
    simp only [eskf_update_mag_mag_b]
    rw [mat_vec_mult_entry _ _ _ x hx]
    rw [vec_normalize_none_apply _ _ (by rw [hn]; norm_num),
      vec_normalize_none_apply _ _ (by rw [hn]; norm_num),
      vec_normalize_none_apply _ _ (by rw [hn]; norm_num), hn]
    interval_cases x <;>
      simp [quat_to_dcm, store_apply, fresh, example_mag_i, example_q]
  have hHall : ∀ x, eskf_update_mag_H
      (eskf_update_mag_mag_b (⟨Real.sqrt, Real.cos, Real.sin⟩ : Libm ℝ) example_mag_i example_q)
      fresh fresh x = if x = 1 then -1 else 0 := by
    intro x
    rw [eskf_update_mag_H_apply, hmb 2 (by decide), hmb 1 (by decide)]
    by_cases h0 : x = 0
    · subst h0; simp [fresh]
    · by_cases h1 : x = 1
      · subst h1; simp
      · by_cases h2 : x = 2
        · subst h2; simp
        · simp [h0, h1, h2, fresh]
  have hH : ∀ x, 6 ≤ x → x < 18 → eskf_update_mag_H
      (eskf_update_mag_mag_b (⟨Real.sqrt, Real.cos, Real.sin⟩ : Libm ℝ) example_mag_i example_q)
      fresh fresh x = 0 := by
    intro x h6 _
    rw [hHall, if_neg (by omega)]
  have hmb0 := hmb 0 (by decide)
  set mag_b := eskf_update_mag_mag_b (⟨Real.sqrt, Real.cos, Real.sin⟩ : Libm ℝ)
    example_mag_i example_q with hmbd
  set H := eskf_update_mag_H mag_b fresh fresh with hHd
  have hPh : ∀ i, i < 6 → row0_Ph (example_P : Buf ℝ) H i
      = if i = 1 then -1000000000000 else 0 := by
    intro i hi
    simp only [row0_Ph, Finset.sum_range_succ, Finset.sum_range_zero, hHall]
    interval_cases i <;> simp [example_P, store_apply, fresh]
  have hs : row0_hPh (example_P : Buf ℝ) H = 1000000000000 := by
    simp only [row0_hPh, Finset.sum_range_succ, Finset.sum_range_zero, hHall]
    rw [hPh 1 (by decide)]
    simp
  have hdet : mat_inverse_detmat (eskf_update_mag_S (example_P : Buf ℝ) H fresh)
      = 1000000000000000001 / 1000000000000000000 := by
    rw [detmat_of_row0 _ _ _ hH, hs]
    simp only [std_rn_mag]; norm_num
  have hK := K_ok (example_P : Buf ℝ) H fresh
    (by rw [hdet, abs_of_pos (by norm_num)]; norm_num)
    (by rw [hdet, abs_of_pos (by norm_num)]; norm_num)
  have hdx : eskf_update_mag_dx
      (_mat_mat_mult (eskf_update_mag_PHt example_P H)
        (mat_inverse_value (eskf_update_mag_S example_P H fresh) fresh) fresh 6 3 3)
      example_mag_sensor mag_b 1 = -(1000000000000000000 / 1000000000000000001) := by
    rw [dx_of_row0 example_P H fresh _ _ _ hH hK 1 (by decide), hPh 1 (by decide), hs, hmb0]
    simp only [std_rn_mag, example_mag_sensor, store_apply, fresh]
    norm_num
  obtain ⟨dq, q1, wb1, hret, -, -⟩ :=
    eskf_update_mag_returns (⟨Real.sqrt, Real.cos, Real.sin⟩ : Libm ℝ) example_mag_sensor
      example_mag_i example_P fresh example_q fresh fresh fresh _ hK
      (fun _ hx => (Real.sqrt_pos.mpr hx).ne') ⟨1, by decide, by rw [hdx]; norm_num⟩
  refine ⟨_, _, hK, hret, ?_, ?_⟩
  · simp [example_P, store_apply]
  · rw [P1_of_row0 example_P H fresh _ hH hK 1 1 (by decide) (by decide), hPh 1 (by decide), hs]
    simp only [Finset.sum_range_succ, Finset.sum_range_zero, hHall]
    simp only [std_rn_mag, example_P, store_apply, fresh]
    norm_num

/-- Rows 1 and 2 of `H` are zero when the uninitialised `H` held zeros. -/
theorem H_rows_zero_of_fresh (mag_b temp : Buf K) (x : Nat) (h6 : 6 ≤ x) :
    eskf_update_mag_H mag_b temp fresh x = 0 := by
  rw [eskf_update_mag_H_apply, if_neg (by omega), if_neg (by omega), if_neg (by omega)]
  by_cases h : x < 12 <;> simp [h, fresh]

/-- With `q = [0,0,0,1]`, `mag_i = [0,0,1]` and zeroed locals, over the reals,
`H` is zero but for `H[0][1] = -1`. -/
theorem example_H_apply (x : Nat) :
    eskf_update_mag_H
      (eskf_update_mag_mag_b (⟨Real.sqrt, Real.cos, Real.sin⟩ : Libm ℝ) example_mag_i example_q)
      fresh fresh x = if x = 1 then -1 else 0 := by
  have hn : vec_norm (⟨Real.sqrt, Real.cos, Real.sin⟩ : Libm ℝ) example_mag_i = 1 := by
    rw [vec_norm_eq]; simp [example_mag_i, store_apply, fresh]
  have hmb : ∀ x, x < 3 →
      eskf_update_mag_mag_b (⟨Real.sqrt, Real.cos, Real.sin⟩ : Libm ℝ) example_mag_i example_q x
        = if x = 2 then 1 else 0 := by
    intro x hx
    simp only [eskf_update_mag_mag_b]
    rw [mat_vec_mult_entry _ _ _ x hx]
    rw [vec_normalize_none_apply _ _ (by rw [hn]; norm_num),
      vec_normalize_none_apply _ _ (by rw [hn]; norm_num),
      vec_normalize_none_apply _ _ (by rw [hn]; norm_num), hn]
    interval_cases x <;>
      simp [quat_to_dcm, store_apply, fresh, example_mag_i, example_q]
  rw [eskf_update_mag_H_apply, hmb 2 (by decide), hmb 1 (by decide)]
  by_cases h0 : x = 0
  · subst h0; simp [fresh]
  · by_cases h1 : x = 1
    · subst h1; simp
    · by_cases h2 : x = 2
      · subst h2; simp
      · simp [h0, h1, h2, fresh]

/-- With `q = [0,0,0,1]`, `mag_i = [0,0,1]`, zeroed locals and the single
non-zero entry `P[1][1] = -std_rn_mag^2`, the matrix `S` is singular: its first
row is zero and the determinant that `mat_inverse` tests is 0. -/
theorem detmat_of_example_P_singular :
    mat_inverse_detmat (eskf_update_mag_S (example_P_singular : Buf ℝ)
      (eskf_update_mag_H
        (eskf_update_mag_mag_b ⟨Real.sqrt, Real.cos, Real.sin⟩ example_mag_i example_q)
        fresh fresh) fresh) = 0 := by
  rw [detmat_of_row0 _ _ _ (fun x h6 _ => H_rows_zero_of_fresh _ _ x h6)]
  simp only [row0_hPh, row0_Ph, Finset.sum_range_succ, Finset.sum_range_zero, example_H_apply]
  simp only [std_rn_mag, example_P_singular, store_apply, fresh]
  norm_num

/-- C9 as the code has it: when the matrix `S` is within the singularity
threshold of the inversion check (`|detmat| < 1E-25`, a singular `S` for
instance), the check of `mat_inverse` fails (the assertion of line 272) and
`eskf_update_mag` reports nothing to its caller and does not return: the
execution stops there, at the assertion, with `P`, `q` and `wb` as they were
before the call (and `*R` as line 477 wrote it). -/
theorem eskf_update_mag_stops_with_mat_inverse [FloorRing K] (L : Libm K)
    (mag_sensor mag_i P R q wb temp0 H0 : Buf K)
    (h : |mat_inverse_detmat (eskf_update_mag_S P
      (eskf_update_mag_H (eskf_update_mag_mag_b L mag_i q) temp0 H0) R)| < 1E-25) :
    mat_inverse (eskf_update_mag_S P
      (eskf_update_mag_H (eskf_update_mag_mag_b L mag_i q) temp0 H0) R) fresh
        = .error Fault.assertion
    ∧ eskf_update_mag L mag_sensor mag_i P R q wb temp0 H0
      = .stopped Fault.assertion ⟨P, eskf_update_mag_R R, q, wb⟩ := by
  have h1 : |mat_inverse_detmat (eskf_update_mag_S P
      (eskf_update_mag_H (eskf_update_mag_mag_b L mag_i q) temp0 H0) R)| < 1 :=
    lt_trans h (by norm_num)
  have hS := mat_inverse_of_det_lt_one _ fresh h1
  refine ⟨hS, ?_⟩
  simp only [eskf_update_mag, eskf_update_mag_K, hS]

/-- C9 at a singular `S`, over the reals: `q = [0,0,0,1]`, `mag_i = [0,0,1]`,
`mag_sensor = [1,0,1]`, `wb = 0`, zeroed locals and `P` zero but for
`P[1][1] = -std_rn_mag^2`. The determinant of `S` is 0, the check fails and the
execution stops at the assertion, in `eskf_update_mag`. -/
theorem eskf_update_mag_stops_with_mat_inverse_witness :
    |mat_inverse_detmat (eskf_update_mag_S (example_P_singular : Buf ℝ)
      (eskf_update_mag_H
        (eskf_update_mag_mag_b ⟨Real.sqrt, Real.cos, Real.sin⟩ example_mag_i example_q)
        fresh fresh) fresh)| < 1E-25
    ∧ mat_inverse (eskf_update_mag_S (example_P_singular : Buf ℝ)
        (eskf_update_mag_H
          (eskf_update_mag_mag_b ⟨Real.sqrt, Real.cos, Real.sin⟩ example_mag_i example_q)
          fresh fresh) fresh) fresh = .error Fault.assertion
    ∧ eskf_update_mag (⟨Real.sqrt, Real.cos, Real.sin⟩ : Libm ℝ) example_mag_sensor
        example_mag_i example_P_singular fresh example_q fresh fresh fresh
      = .stopped Fault.assertion
          ⟨example_P_singular, eskf_update_mag_R fresh, example_q, fresh⟩ :=
  ⟨by rw [detmat_of_example_P_singular]; norm_num,
    eskf_update_mag_stops_with_mat_inverse _ _ _ _ _ _ _ _ _
      (by rw [detmat_of_example_P_singular]; norm_num)⟩

/-- C9 refuted as stated, over the reals: for `q = [0,0,0,1]`, `mag_i = [0,0,1]`,
`mag_sensor = [1,0,1]`, `wb = 0`, zeroed locals and `P` zero but for
`P[1][1] = -std_rn_mag^2`, the matrix `S` is singular (determinant 0) and fails
the check of `mat_inverse`; the call is no report to the caller, and no return
at all: the execution stops at the assertion, inside `eskf_update_mag`. -/
theorem eskf_update_mag_aborts_on_singular_S :
    mat_inverse_detmat (eskf_update_mag_S (example_P_singular : Buf ℝ)
      (eskf_update_mag_H
        (eskf_update_mag_mag_b ⟨Real.sqrt, Real.cos, Real.sin⟩ example_mag_i example_q)
        fresh fresh) fresh) = 0
    ∧ mat_inverse (eskf_update_mag_S (example_P_singular : Buf ℝ)
        (eskf_update_mag_H
          (eskf_update_mag_mag_b ⟨Real.sqrt, Real.cos, Real.sin⟩ example_mag_i example_q)
          fresh fresh) fresh) fresh = .error Fault.assertion
    ∧ eskf_update_mag (⟨Real.sqrt, Real.cos, Real.sin⟩ : Libm ℝ) example_mag_sensor
        example_mag_i example_P_singular fresh example_q fresh fresh fresh
      = .stopped Fault.assertion
          ⟨example_P_singular, eskf_update_mag_R fresh, example_q, fresh⟩
    ∧ ∀ m, eskf_update_mag (⟨Real.sqrt, Real.cos, Real.sin⟩ : Libm ℝ) example_mag_sensor
        example_mag_i example_P_singular fresh example_q fresh fresh fresh ≠ .returned m := by
  have h : mat_inverse (eskf_update_mag_S (example_P_singular : Buf ℝ)
        (eskf_update_mag_H
          (eskf_update_mag_mag_b ⟨Real.sqrt, Real.cos, Real.sin⟩ example_mag_i example_q)
          fresh fresh) fresh) fresh = .error Fault.assertion :=
    mat_inverse_of_det_lt_one _ _ (by rw [detmat_of_example_P_singular]; norm_num)
  have hstop : eskf_update_mag (⟨Real.sqrt, Real.cos, Real.sin⟩ : Libm ℝ) example_mag_sensor
        example_mag_i example_P_singular fresh example_q fresh fresh fresh
      = .stopped Fault.assertion
          ⟨example_P_singular, eskf_update_mag_R fresh, example_q, fresh⟩ := by
    simp only [eskf_update_mag, eskf_update_mag_K, h]
  refine ⟨detmat_of_example_P_singular, h, hstop, ?_⟩
  intro m hm
  rw [hstop] at hm
  cases hm

/-- C14: `quat_mult (a, b)` is the Hamilton product for quaternions stored
vector part first, scalar last: the vector part is
`a_s * b_v + b_s * a_v + a_v x b_v` (the cross product as `vec_outer_product`
computes it) and the scalar part is `a_s * b_s` minus the three-term dot
product of the vector parts; `[0, 0, 0, 1]` is a left and a right identity. -/
theorem quat_mult_hamilton (a b res out : Buf K) :
    quat_mult a b res 0 = a 3 * b 0 + b 3 * a 0 + vec_outer_product a b out 0
    ∧ quat_mult a b res 1 = a 3 * b 1 + b 3 * a 1 + vec_outer_product a b out 1
    ∧ quat_mult a b res 2 = a 3 * b 2 + b 3 * a 2 + vec_outer_product a b out 2
    ∧ quat_mult a b res 3 = a 3 * b 3 - (a 0 * b 0 + a 1 * b 1 + a 2 * b 2)
    ∧ (quat_mult example_q b res 0 = b 0 ∧ quat_mult example_q b res 1 = b 1
        ∧ quat_mult example_q b res 2 = b 2 ∧ quat_mult example_q b res 3 = b 3)
    ∧ (quat_mult a example_q res 0 = a 0 ∧ quat_mult a example_q res 1 = a 1
        ∧ quat_mult a example_q res 2 = a 2 ∧ quat_mult a example_q res 3 = a 3) := by
  refine ⟨?_, ?_, ?_, ?_, ⟨?_, ?_, ?_, ?_⟩, ⟨?_, ?_, ?_, ?_⟩⟩ <;>
    simp [quat_mult, vec_outer_product, store_apply, example_q, fresh] <;> ring1

/-- The nine cells written by `quat_to_dcm`. -/
theorem quat_to_dcm_cells (q res : Buf K) :
    quat_to_dcm q res 0 = q 0 ^ 2 - q 1 ^ 2 - q 2 ^ 2 + q 3 ^ 2
    ∧ quat_to_dcm q res 1 = 2 * (q 0 * q 1 + q 2 * q 3)
    ∧ quat_to_dcm q res 2 = 2 * (q 0 * q 2 - q 1 * q 3)
    ∧ quat_to_dcm q res 3 = 2 * (q 0 * q 1 - q 2 * q 3)
    ∧ quat_to_dcm q res 4 = -1 * q 0 ^ 2 + q 1 ^ 2 - q 2 ^ 2 + q 3 ^ 2
    ∧ quat_to_dcm q res 5 = 2 * (q 1 * q 2 + q 0 * q 3)
    ∧ quat_to_dcm q res 6 = 2 * (q 0 * q 2 + q 1 * q 3)
    ∧ quat_to_dcm q res 7 = 2 * (q 1 * q 2 - q 0 * q 3)
    ∧ quat_to_dcm q res 8 = -1 * q 0 ^ 2 - q 1 ^ 2 + q 2 ^ 2 + q 3 ^ 2 :=
  ⟨rfl, rfl, rfl, rfl, rfl, rfl, rfl, rfl, rfl⟩

/-- The nine cells of the 3x3 transpose. -/
theorem mat_transpose_cells (m t : Buf K) :
    mat_transpose m t 0 = m 0 ∧ mat_transpose m t 1 = m 3 ∧ mat_transpose m t 2 = m 6
    ∧ mat_transpose m t 3 = m 1 ∧ mat_transpose m t 4 = m 4 ∧ mat_transpose m t 5 = m 7
    ∧ mat_transpose m t 6 = m 2 ∧ mat_transpose m t 7 = m 5 ∧ mat_transpose m t 8 = m 8 := by
  refine ⟨?_, ?_, ?_, ?_, ?_, ?_, ?_, ?_, ?_⟩ <;>
    simp [mat_transpose, mat_transpose_spec]

/-- C15: for a quaternion of squared norm one, `M = quat_to_dcm q` is
orthonormal: `mat_mat_mult (mat_transpose M, M)` and
`mat_mat_mult (M, mat_transpose M)` are the identity matrix, entry by entry. -/
theorem quat_to_dcm_orthonormal (q res t out : Buf K)
    (hq : q 0 ^ 2 + q 1 ^ 2 + q 2 ^ 2 + q 3 ^ 2 = 1) (i j : Nat) (hi : i < 3) (hj : j < 3) :
    mat_mat_mult (mat_transpose (quat_to_dcm q res) t) (quat_to_dcm q res) out (3 * i + j)
        = (if i = j then 1 else 0)
    ∧ mat_mat_mult (quat_to_dcm q res) (mat_transpose (quat_to_dcm q res) t) out (3 * i + j)
        = (if i = j then 1 else 0) := by
  obtain ⟨t0, t1, t2, t3, t4, t5, t6, t7, t8⟩ := mat_transpose_cells (quat_to_dcm q res) t
  obtain ⟨c0, c1, c2, c3, c4, c5, c6, c7, c8⟩ := quat_to_dcm_cells q res
  rw [mat_mat_mult_entry _ _ _ i j hi hj, mat_mat_mult_entry _ _ _ i j hi hj]
  interval_cases i <;> interval_cases j <;>
    simp only [Nat.mul_zero, Nat.mul_one, Nat.add_zero, Nat.zero_add, Nat.reduceAdd,
      Nat.reduceMul, t0, t1, t2, t3, t4, t5, t6, t7, t8, c0, c1, c2, c3, c4, c5, c6, c7, c8,
      if_true, Nat.reduceEqDiff, if_false] <;>
    constructor <;>
    first
      | ring1
      | linear_combination (q 0 ^ 2 + q 1 ^ 2 + q 2 ^ 2 + q 3 ^ 2 + 1) * hq

/-- C15 at the identity quaternion `[0, 0, 0, 1]`, entry `(0, 0)`. -/
theorem quat_to_dcm_orthonormal_witness :
    mat_mat_mult (mat_transpose (quat_to_dcm (example_q : Buf ℚ) fresh) fresh)
        (quat_to_dcm example_q fresh) fresh (3 * 0 + 0) = (if 0 = 0 then 1 else 0)
    ∧ mat_mat_mult (quat_to_dcm (example_q : Buf ℚ) fresh)
        (mat_transpose (quat_to_dcm example_q fresh) fresh) fresh (3 * 0 + 0)
        = (if 0 = 0 then 1 else 0) :=
  quat_to_dcm_orthonormal example_q fresh fresh fresh
    (by simp [example_q, store_apply, fresh]) 0 0 (by decide) (by decide)

/-- C16: for a quaternion of squared norm one, `quat_frame_conv (q, v)` and
`mat_vec_mult (quat_to_dcm q, v)` have the same three components. -/
theorem quat_frame_conv_eq_dcm (q v res out1 out2 : Buf K)
    (hq : q 0 ^ 2 + q 1 ^ 2 + q 2 ^ 2 + q 3 ^ 2 = 1) (i : Nat) (hi : i < 3) :
    quat_frame_conv q v out1 i = mat_vec_mult (quat_to_dcm q res) v out2 i := by
  obtain ⟨c0, c1, c2, c3, c4, c5, c6, c7, c8⟩ := quat_to_dcm_cells q res
  rw [mat_vec_mult_entry _ _ _ i hi]
  interval_cases i <;>
    simp only [Nat.mul_zero, Nat.mul_one, Nat.add_zero, Nat.zero_add, Nat.reduceAdd,
      Nat.reduceMul, c0, c1, c2, c3, c4, c5, c6, c7, c8] <;>
    simp [quat_frame_conv, store_apply]
  · linear_combination (v 0) * hq
  · linear_combination (v 1) * hq
  · linear_combination (v 2) * hq

/-- C16 at `q = [0, 0, 0, 1]`, `v = [1, 0, 1]`, component 0. -/
theorem quat_frame_conv_eq_dcm_witness :
    quat_frame_conv (example_q : Buf ℚ) example_mag_sensor fresh 0
      = mat_vec_mult (quat_to_dcm example_q fresh) example_mag_sensor fresh 0 :=
  quat_frame_conv_eq_dcm example_q example_mag_sensor fresh fresh fresh
    (by simp [example_q, store_apply, fresh]) 0 (by decide)

/-! ## Attitude propagation -/

/-- The four cells of the quaternion `vec_to_quat` returns for an axis of
non-zero norm. -/
theorem vec_to_quat_cells (L : Libm K) (axis res : Buf K) (hrot : vec_norm L axis ≠ 0) :
    ∃ r, vec_to_quat L axis res = .ok r
      ∧ r 0 = axis 0 * (1 / vec_norm L axis) * L.sin (vec_norm L axis * 0.5)
      ∧ r 1 = axis 1 * (1 / vec_norm L axis) * L.sin (vec_norm L axis * 0.5)
      ∧ r 2 = axis 2 * (1 / vec_norm L axis) * L.sin (vec_norm L axis * 0.5)
      ∧ r 3 = L.cos (vec_norm L axis * 0.5) := by
  refine ⟨axis_rotation_to_quat L (vec_cons_mult (1 / vec_norm L axis) axis (some fresh))
    (vec_norm L axis) res, by simp only [vec_to_quat, if_neg hrot], ?_, ?_, ?_, ?_⟩ <;>
    simp [axis_rotation_to_quat, forLoop, iterate, store_apply, vec_cons_mult_some]

/-- The quotient `1.0 / rot` of `vec_to_quat` is a division by zero for an axis
of norm zero. -/
theorem vec_to_quat_of_norm_zero (L : Libm K) (axis res : Buf K) (hrot : vec_norm L axis = 0) :
    vec_to_quat L axis res = .error Fault.divByZero := by
  simp only [vec_to_quat, if_pos hrot]

/-- The norm of the rotation vector that `eskf_integrate` and
`eskf_compute_error` pass to `vec_to_quat`. -/
theorem vec_norm_omega_dt (L : Libm K) (omega : Buf K) (dt : K) :
    vec_norm L (vec_cons_mult dt omega (some fresh)) = spec_theta L omega dt := by
  rw [vec_norm_eq, spec_theta]
  simp [vec_cons_mult_some]

/-- The quaternion that `eskf_integrate` and `eskf_compute_error` obtain from
`vec_to_quat` is the rotation increment of the specification. -/
theorem vec_to_quat_omega_dt (L : Libm K) (omega res : Buf K) (dt : K)
    (hθ : spec_theta L omega dt ≠ 0) :
    ∃ dq, vec_to_quat L (vec_cons_mult dt omega (some fresh)) res = .ok dq
      ∧ dq 0 = spec_dq L omega dt 0 ∧ dq 1 = spec_dq L omega dt 1
      ∧ dq 2 = spec_dq L omega dt 2 ∧ dq 3 = spec_dq L omega dt 3 := by
  have hrot : vec_norm L (vec_cons_mult dt omega (some fresh)) ≠ 0 := by
    rw [vec_norm_omega_dt]; exact hθ
  obtain ⟨r, hr, r0, r1, r2, r3⟩ := vec_to_quat_cells L _ res hrot
  rw [vec_norm_omega_dt] at r0 r1 r2 r3
  have hhalf : spec_theta L omega dt * 0.5 = spec_theta L omega dt / 2 := by
    rw [show (0.5 : K) = 1 / 2 by norm_num]; ring
  rw [hhalf] at r0 r1 r2 r3
  refine ⟨r, hr, ?_, ?_, ?_, ?_⟩
  · rw [r0]; simp [spec_dq, store_apply, vec_cons_mult_some]; field_simp; ring
  · rw [r1]; simp [spec_dq, store_apply, vec_cons_mult_some]; field_simp; ring
  · rw [r2]; simp [spec_dq, store_apply, vec_cons_mult_some]; field_simp; ring
  · rw [r3]; simp [spec_dq, store_apply]

/-- The four cells written by `quat_mult`. -/
theorem quat_mult_cells (a b res : Buf K) :
    quat_mult a b res 0 = a 3 * b 0 - a 2 * b 1 + a 1 * b 2 + a 0 * b 3
    ∧ quat_mult a b res 1 = a 2 * b 0 + a 3 * b 1 - a 0 * b 2 + a 1 * b 3
    ∧ quat_mult a b res 2 = -a 1 * b 0 + a 0 * b 1 + a 3 * b 2 + a 2 * b 3
    ∧ quat_mult a b res 3 = -a 0 * b 0 - a 1 * b 1 - a 2 * b 2 + a 3 * b 3 :=
  ⟨rfl, rfl, rfl, rfl⟩

/-- C13: for a rotation vector `omega * dt` of non-zero norm `theta`,
`eskf_integrate (q, omega, dt)` returns `quat_mult (q, dq)` with
`dq = [sin(theta/2) * (omega * dt) / theta, cos(theta/2)]`; for
`q = [0, 0, 0, 1]` it returns `dq` itself. -/
theorem eskf_integrate_eq (L : Libm K) (q omega res : Buf K) (dt : K)
    (hθ : spec_theta L omega dt ≠ 0) :
    (∃ r, eskf_integrate L q omega dt res = .ok r
      ∧ ∀ i, i < 4 → r i = quat_mult q (spec_dq L omega dt) fresh i)
    ∧ (∃ r, eskf_integrate L example_q omega dt res = .ok r
      ∧ ∀ i, i < 4 → r i = spec_dq L omega dt i) := by
  obtain ⟨dq, hdq, d0, d1, d2, d3⟩ := vec_to_quat_omega_dt L omega fresh dt hθ
  constructor
  · refine ⟨quat_mult q dq res, by simp only [eskf_integrate, hdq], ?_⟩
    intro i hi
    obtain ⟨a0, a1, a2, a3⟩ := quat_mult_cells q dq res
    obtain ⟨b0, b1, b2, b3⟩ := quat_mult_cells q (spec_dq L omega dt) fresh
    interval_cases i
    · rw [a0, b0, d0, d1, d2, d3]
    · rw [a1, b1, d0, d1, d2, d3]
    · rw [a2, b2, d0, d1, d2, d3]
    · rw [a3, b3, d0, d1, d2, d3]
  · refine ⟨quat_mult example_q dq res, by simp only [eskf_integrate, hdq], ?_⟩
    intro i hi
    obtain ⟨a0, a1, a2, a3⟩ := quat_mult_cells example_q dq res
    interval_cases i
    · rw [a0, ← d0]; simp [example_q, store_apply, fresh]
    · rw [a1, ← d1]; simp [example_q, store_apply, fresh]
    · rw [a2, ← d2]; simp [example_q, store_apply, fresh]
    · rw [a3, ← d3]; simp [example_q, store_apply, fresh]

/-- C13 over the reals at `q = [0, 0, 0, 1]`, `omega = [0, 0, 1]`, `dt = 1`: the
result is `[0, 0, sin(0.5), cos(0.5)]`. -/
theorem eskf_integrate_eq_witness :
    ∃ r, eskf_integrate (⟨Real.sqrt, Real.cos, Real.sin⟩ : Libm ℝ) example_q example_mag_i 1
        fresh = .ok r
      ∧ r 0 = 0 ∧ r 1 = 0 ∧ r 2 = Real.sin 0.5 ∧ r 3 = Real.cos 0.5 := by
  have hθ : spec_theta (⟨Real.sqrt, Real.cos, Real.sin⟩ : Libm ℝ) example_mag_i 1 = 1 := by
    simp [spec_theta, example_mag_i, store_apply, fresh]
  obtain ⟨-, r, hr, hcells⟩ :=
    eskf_integrate_eq (⟨Real.sqrt, Real.cos, Real.sin⟩ : Libm ℝ) example_q example_mag_i fresh 1
      (by rw [hθ]; norm_num)
  have hhalf : (0.5 : ℝ) = 1 / 2 := by norm_num
  refine ⟨r, hr, ?_, ?_, ?_, ?_⟩
  · rw [hcells 0 (by decide)]; simp only [spec_dq, hθ]
    simp [example_mag_i, store_apply, fresh]
  · rw [hcells 1 (by decide)]; simp only [spec_dq, hθ]
    simp [example_mag_i, store_apply, fresh]
  · rw [hcells 2 (by decide), hhalf]; simp only [spec_dq, hθ]
    simp [example_mag_i, store_apply, fresh]
  · rw [hcells 3 (by decide), hhalf]; simp only [spec_dq, hθ]
    simp [store_apply]

/-- With a square root whose square is its argument, the rotation angle of a
rotation vector with a non-zero component is not zero and squares to the sum
of the squares. -/
theorem spec_theta_sq (L : Libm K) (omega : Buf K) (dt : K)
    (hsq : ∀ x : K, 0 ≤ x → L.sqrt x * L.sqrt x = x) (hne : ∃ i, i < 3 ∧ omega i * dt ≠ 0) :
    spec_theta L omega dt * spec_theta L omega dt
        = (omega 0 * dt) ^ 2 + (omega 1 * dt) ^ 2 + (omega 2 * dt) ^ 2
    ∧ spec_theta L omega dt ≠ 0 := by
  have h0 := sq_nonneg (omega 0 * dt)
  have h1 := sq_nonneg (omega 1 * dt)
  have h2 := sq_nonneg (omega 2 * dt)
  have hpos : 0 < (omega 0 * dt) ^ 2 + (omega 1 * dt) ^ 2 + (omega 2 * dt) ^ 2 := by
    obtain ⟨i, hi, hv⟩ := hne
    have hp : 0 < (omega i * dt) ^ 2 := by positivity
    interval_cases i <;> linarith
  have hθθ := hsq _ hpos.le
  refine ⟨hθθ, ?_⟩
  intro hz
  rw [spec_theta] at hz
  rw [hz, mul_zero] at hθθ
  exact hpos.ne hθθ

/-- The rotation increment of the specification has squared norm one. -/
theorem spec_dq_unit (L : Libm K) (omega : Buf K) (dt : K)
    (hsq : ∀ x : K, 0 ≤ x → L.sqrt x * L.sqrt x = x)
    (htrig : ∀ x : K, L.sin x ^ 2 + L.cos x ^ 2 = 1) (hne : ∃ i, i < 3 ∧ omega i * dt ≠ 0) :
    spec_dq L omega dt 0 ^ 2 + spec_dq L omega dt 1 ^ 2 + spec_dq L omega dt 2 ^ 2
      + spec_dq L omega dt 3 ^ 2 = 1 := by
  obtain ⟨hθθ, hθ⟩ := spec_theta_sq L omega dt hsq hne
  have ht := htrig (spec_theta L omega dt / 2)
  simp only [spec_dq, store_apply]
  norm_num
  generalize spec_theta L omega dt = θ at *
  generalize L.sin (θ / 2) = s at *
  generalize L.cos (θ / 2) = c at *
  field_simp
  linear_combination (θ ^ 2) * ht - (s ^ 2) * hθθ

/-- The squared norm of a product computed by `quat_mult` is the product of the
squared norms. -/
theorem quat_mult_norm (a b res : Buf K) :
    quat_mult a b res 0 ^ 2 + quat_mult a b res 1 ^ 2 + quat_mult a b res 2 ^ 2
        + quat_mult a b res 3 ^ 2
      = (a 0 ^ 2 + a 1 ^ 2 + a 2 ^ 2 + a 3 ^ 2) * (b 0 ^ 2 + b 1 ^ 2 + b 2 ^ 2 + b 3 ^ 2) := by
  obtain ⟨a0, a1, a2, a3⟩ := quat_mult_cells a b res
  rw [a0, a1, a2, a3]
  ring

/-- C20: for a quaternion `q` of squared norm one and a rotation vector
`omega * dt` with a non-zero component, `eskf_integrate` returns a quaternion
of squared norm one (the square root squaring to its argument on non-negative
numbers, and `sin^2 + cos^2 = 1`). -/
theorem eskf_integrate_unit_norm (L : Libm K) (q omega res : Buf K) (dt : K)
    (hq : q 0 ^ 2 + q 1 ^ 2 + q 2 ^ 2 + q 3 ^ 2 = 1) (hne : ∃ i, i < 3 ∧ omega i * dt ≠ 0)
    (hsq : ∀ x : K, 0 ≤ x → L.sqrt x * L.sqrt x = x)
    (htrig : ∀ x : K, L.sin x ^ 2 + L.cos x ^ 2 = 1) :
    ∃ r, eskf_integrate L q omega dt res = .ok r
      ∧ r 0 ^ 2 + r 1 ^ 2 + r 2 ^ 2 + r 3 ^ 2 = 1 := by
  obtain ⟨-, hθ⟩ := spec_theta_sq L omega dt hsq hne
  obtain ⟨dq, hdq, d0, d1, d2, d3⟩ := vec_to_quat_omega_dt L omega fresh dt hθ
  refine ⟨quat_mult q dq res, by simp only [eskf_integrate, hdq], ?_⟩
  rw [quat_mult_norm, hq, d0, d1, d2, d3, spec_dq_unit L omega dt hsq htrig hne, one_mul]

/-- C20 over the reals at `q = [0, 0, 0, 1]`, `omega = [0, 0, 1]`, `dt = 1`. -/
theorem eskf_integrate_unit_norm_witness :
    ∃ r, eskf_integrate (⟨Real.sqrt, Real.cos, Real.sin⟩ : Libm ℝ) example_q example_mag_i 1
        fresh = .ok r
      ∧ r 0 ^ 2 + r 1 ^ 2 + r 2 ^ 2 + r 3 ^ 2 = 1 :=
  eskf_integrate_unit_norm ⟨Real.sqrt, Real.cos, Real.sin⟩ example_q example_mag_i fresh 1
    (by simp [example_q, store_apply, fresh])
    ⟨2, by decide, by simp [example_mag_i, store_apply]⟩
    (fun _ hx => Real.mul_self_sqrt hx) (fun x => Real.sin_sq_add_cos_sq x)

/-- C11, evaluated on the code over the reals: for `omega = [0, 0, 0]`
(`dt = 1`, `q = [0, 0, 0, 1]`, `P = Q = 0`) the rotation vector has norm zero and
`vec_to_quat` forms the quotient `1.0 / rot` with `rot = 0`: neither
`eskf_integrate` nor `eskf_compute_error` yields a result in exact arithmetic
(in IEEE arithmetic the quotient is an infinity and the quaternion a NaN). -/
theorem eskf_integrate_divides_by_zero_rate :
    vec_norm (⟨Real.sqrt, Real.cos, Real.sin⟩ : Libm ℝ)
        (vec_cons_mult 1 fresh (some fresh)) = 0
    ∧ eskf_integrate (⟨Real.sqrt, Real.cos, Real.sin⟩ : Libm ℝ) example_q fresh 1 fresh
        = .error Fault.divByZero
    ∧ eskf_compute_error (⟨Real.sqrt, Real.cos, Real.sin⟩ : Libm ℝ) fresh 1 fresh fresh
        = .error Fault.divByZero := by
  have hn : vec_norm (⟨Real.sqrt, Real.cos, Real.sin⟩ : Libm ℝ)
      (vec_cons_mult 1 fresh (some fresh)) = 0 := by
    rw [vec_norm_omega_dt]; simp [spec_theta, fresh]
  have hq := vec_to_quat_of_norm_zero _ _ (fresh : Buf ℝ) hn
  refine ⟨hn, ?_, ?_⟩
  · simp only [eskf_integrate, hq]
  · simp only [eskf_compute_error, hq]

/-- The sum of the squares that `quat_normalize` accumulates. -/
theorem quat_normalize_sum (q : Buf K) :
    forLoop 0 4 (fun i n => n + q i ^ 2) (0 : K) = q 0 ^ 2 + q 1 ^ 2 + q 2 ^ 2 + q 3 ^ 2 := by
  simp [forLoop, iterate]

/-- The cells of the quaternion written by `quat_normalize` when the sum of
the squares is not zero, in either mode. -/
theorem quat_normalize_apply (L : Libm K) (q : Buf K) (res : Option (Buf K))
    (hs : q 0 ^ 2 + q 1 ^ 2 + q 2 ^ 2 + q 3 ^ 2 ≠ 0) (i : Nat) (hi : i < 4) :
    quat_normalize L q res i
      = q i * (1 / L.sqrt (q 0 ^ 2 + q 1 ^ 2 + q 2 ^ 2 + q 3 ^ 2)) := by
  simp only [quat_normalize, quat_normalize_sum, if_neg hs]
  cases res with
  | none =>
    simp only [forLoop, Nat.sub_zero]
    rw [iterate_inplace (fun t => t * (1 / L.sqrt (q 0 ^ 2 + q 1 ^ 2 + q 2 ^ 2 + q 3 ^ 2))) 4 q i,
      if_pos hi]
  | some r =>
    simp only [forLoop, Nat.sub_zero]
    rw [iterate_fill (fun k => q k * (1 / L.sqrt (q 0 ^ 2 + q 1 ^ 2 + q 2 ^ 2 + q 3 ^ 2))) 4 r i,
      if_pos hi]

/-- The quaternion is left as it is by `quat_normalize` when the sum of the
squares is zero. -/
theorem quat_normalize_of_zero (L : Libm K) (q : Buf K) (res : Option (Buf K))
    (hs : q 0 ^ 2 + q 1 ^ 2 + q 2 ^ 2 + q 3 ^ 2 = 0) :
    quat_normalize L q res = res.getD q := by
  simp only [quat_normalize, quat_normalize_sum, if_pos hs]

/-- The four cells written by `quat_conjugate`. -/
theorem quat_conjugate_cells (q res : Buf K) :
    quat_conjugate q res 0 = -q 0 ∧ quat_conjugate q res 1 = -q 1
    ∧ quat_conjugate q res 2 = -q 2 ∧ quat_conjugate q res 3 = q 3 :=
  ⟨rfl, rfl, rfl, rfl⟩

/-- C17 as the code has it: for a vector `v` with a non-zero component (and a
square root squaring to its argument), `p = quat_conjugate (quat_normalize
[v0, v1, v2, 0])` composed with itself by `quat_mult` is `[0, 0, 0, -1]`. -/
theorem quat_mult_pure_unit_self (L : Libm K) (v out1 out2 : Buf K) (res : Option (Buf K))
    (hsq : ∀ x : K, 0 ≤ x → L.sqrt x * L.sqrt x = x) (hne : ∃ i, i < 3 ∧ v i ≠ 0) :
    quat_mult (quat_conjugate (quat_normalize L (pure_quat v) res) out1)
        (quat_conjugate (quat_normalize L (pure_quat v) res) out1) out2 0 = 0
    ∧ quat_mult (quat_conjugate (quat_normalize L (pure_quat v) res) out1)
        (quat_conjugate (quat_normalize L (pure_quat v) res) out1) out2 1 = 0
    ∧ quat_mult (quat_conjugate (quat_normalize L (pure_quat v) res) out1)
        (quat_conjugate (quat_normalize L (pure_quat v) res) out1) out2 2 = 0
    ∧ quat_mult (quat_conjugate (quat_normalize L (pure_quat v) res) out1)
        (quat_conjugate (quat_normalize L (pure_quat v) res) out1) out2 3 = -1 := by
  have h0 := sq_nonneg (v 0)
  have h1 := sq_nonneg (v 1)
  have h2 := sq_nonneg (v 2)
  have hpos : 0 < v 0 ^ 2 + v 1 ^ 2 + v 2 ^ 2 := by
    obtain ⟨i, hi, hv⟩ := hne
    have hp : 0 < v i ^ 2 := by positivity
    interval_cases i <;> linarith
  have e0 : pure_quat v 0 = v 0 := by simp [pure_quat, store_apply]
  have e1 : pure_quat v 1 = v 1 := by simp [pure_quat, store_apply]
  have e2 : pure_quat v 2 = v 2 := by simp [pure_quat, store_apply]
  have e3 : pure_quat v 3 = 0 := by simp [pure_quat, store_apply]
  have hsum : pure_quat v 0 ^ 2 + pure_quat v 1 ^ 2 + pure_quat v 2 ^ 2 + pure_quat v 3 ^ 2
      = v 0 ^ 2 + v 1 ^ 2 + v 2 ^ 2 := by
    rw [e0, e1, e2, e3]; ring
  have hs : pure_quat v 0 ^ 2 + pure_quat v 1 ^ 2 + pure_quat v 2 ^ 2 + pure_quat v 3 ^ 2 ≠ 0 := by
    rw [hsum]; exact hpos.ne'
  have n0 := quat_normalize_apply L (pure_quat v) res hs 0 (by decide)
  have n1 := quat_normalize_apply L (pure_quat v) res hs 1 (by decide)
  have n2 := quat_normalize_apply L (pure_quat v) res hs 2 (by decide)
  have n3 := quat_normalize_apply L (pure_quat v) res hs 3 (by decide)
  rw [hsum, e0] at n0
  rw [hsum, e1] at n1
  rw [hsum, e2] at n2
  rw [hsum, e3] at n3
  have hrr := hsq _ hpos.le
  have hr : L.sqrt (v 0 ^ 2 + v 1 ^ 2 + v 2 ^ 2) ≠ 0 := by
    intro hz; rw [hz, mul_zero] at hrr; exact hpos.ne hrr
  obtain ⟨c0, c1, c2, c3⟩ := quat_conjugate_cells (quat_normalize L (pure_quat v) res) out1
  obtain ⟨m0, m1, m2, m3⟩ := quat_mult_cells
    (quat_conjugate (quat_normalize L (pure_quat v) res) out1)
    (quat_conjugate (quat_normalize L (pure_quat v) res) out1) out2
  rw [m0, m1, m2, m3, c0, c1, c2, c3, n0, n1, n2, n3]
  generalize L.sqrt (v 0 ^ 2 + v 1 ^ 2 + v 2 ^ 2) = r at *
  have hinv : 1 / r * (1 / r) * (v 0 ^ 2 + v 1 ^ 2 + v 2 ^ 2) = 1 := by
    rw [← hrr]; field_simp
  refine ⟨by ring, by ring, by ring, ?_⟩
  linear_combination (-1) * hinv

/-- C17 as the code has it, over the reals at `v = [1, 0, 0]`. -/
theorem quat_mult_pure_unit_self_witness :
    quat_mult (quat_conjugate (quat_normalize (⟨Real.sqrt, Real.cos, Real.sin⟩ : Libm ℝ)
          (pure_quat example_mag_x) none) fresh)
        (quat_conjugate (quat_normalize (⟨Real.sqrt, Real.cos, Real.sin⟩ : Libm ℝ)
          (pure_quat example_mag_x) none) fresh) fresh 0 = 0
    ∧ quat_mult (quat_conjugate (quat_normalize (⟨Real.sqrt, Real.cos, Real.sin⟩ : Libm ℝ)
          (pure_quat example_mag_x) none) fresh)
        (quat_conjugate (quat_normalize (⟨Real.sqrt, Real.cos, Real.sin⟩ : Libm ℝ)
          (pure_quat example_mag_x) none) fresh) fresh 1 = 0
    ∧ quat_mult (quat_conjugate (quat_normalize (⟨Real.sqrt, Real.cos, Real.sin⟩ : Libm ℝ)
          (pure_quat example_mag_x) none) fresh)
        (quat_conjugate (quat_normalize (⟨Real.sqrt, Real.cos, Real.sin⟩ : Libm ℝ)
          (pure_quat example_mag_x) none) fresh) fresh 2 = 0
    ∧ quat_mult (quat_conjugate (quat_normalize (⟨Real.sqrt, Real.cos, Real.sin⟩ : Libm ℝ)
          (pure_quat example_mag_x) none) fresh)
        (quat_conjugate (quat_normalize (⟨Real.sqrt, Real.cos, Real.sin⟩ : Libm ℝ)
          (pure_quat example_mag_x) none) fresh) fresh 3 = -1 :=
  quat_mult_pure_unit_self ⟨Real.sqrt, Real.cos, Real.sin⟩ example_mag_x fresh fresh none
    (fun _ hx => Real.mul_self_sqrt hx) ⟨0, by decide, by simp [example_mag_x, store_apply]⟩

/-- C17 refuted as stated, over the reals: for `v = [1, 0, 0]` the scalar part
of `quat_mult (p, p)` is `-1`, not `1`; for `v = [0, 0, 0]` (normalization in
place, which then writes nothing) it is `0`. -/
theorem quat_mult_pure_unit_self_is_not_identity :
    quat_mult (quat_conjugate (quat_normalize (⟨Real.sqrt, Real.cos, Real.sin⟩ : Libm ℝ)
          (pure_quat example_mag_x) none) fresh)
        (quat_conjugate (quat_normalize (⟨Real.sqrt, Real.cos, Real.sin⟩ : Libm ℝ)
          (pure_quat example_mag_x) none) fresh) fresh 3 = -1
    ∧ quat_mult (quat_conjugate (quat_normalize (⟨Real.sqrt, Real.cos, Real.sin⟩ : Libm ℝ)
          (pure_quat fresh) none) fresh)
        (quat_conjugate (quat_normalize (⟨Real.sqrt, Real.cos, Real.sin⟩ : Libm ℝ)
          (pure_quat fresh) none) fresh) fresh 3 = 0 := by
  constructor
  · have hs : (pure_quat (example_mag_x : Buf ℝ)) 0 ^ 2 + pure_quat example_mag_x 1 ^ 2
        + pure_quat example_mag_x 2 ^ 2 + pure_quat example_mag_x 3 ^ 2 = 1 := by
      simp [pure_quat, example_mag_x, store_apply, fresh]
    have n := fun i hi => quat_normalize_apply (⟨Real.sqrt, Real.cos, Real.sin⟩ : Libm ℝ)
      (pure_quat example_mag_x) none (by rw [hs]; norm_num) i hi
    obtain ⟨m0, m1, m2, m3⟩ := quat_mult_cells
      (quat_conjugate (quat_normalize (⟨Real.sqrt, Real.cos, Real.sin⟩ : Libm ℝ)
        (pure_quat example_mag_x) none) fresh)
      (quat_conjugate (quat_normalize (⟨Real.sqrt, Real.cos, Real.sin⟩ : Libm ℝ)
        (pure_quat example_mag_x) none) fresh) fresh
    obtain ⟨c0, c1, c2, c3⟩ := quat_conjugate_cells
      (quat_normalize (⟨Real.sqrt, Real.cos, Real.sin⟩ : Libm ℝ)
        (pure_quat example_mag_x) none) fresh
    rw [m3, c0, c1, c2, c3, n 0 (by decide), n 1 (by decide), n 2 (by decide),
      n 3 (by decide), hs]
    simp [pure_quat, example_mag_x, store_apply, fresh]
  · have hz := quat_normalize_of_zero (⟨Real.sqrt, Real.cos, Real.sin⟩ : Libm ℝ)
      (pure_quat fresh) none (by simp [pure_quat, store_apply, fresh])
    rw [hz]
    simp [quat_mult, quat_conjugate, pure_quat, store_apply, fresh]

/-! ## Vector normalization -/

/-- The two objects after `vec_normalize` on a vector of non-zero norm: the
output receives the scaled vector and the input stays when an output is given;
the input is scaled in place otherwise. -/
theorem vec_normalize_mem_of_ne (L : Libm K) (vec : Buf K) (res : Option (Buf K))
    (hn : vec_norm L vec ≠ 0) :
    vec_normalize_mem L vec res
      = (1, (match res with
              | some _ => vec
              | none => (vec_normalize L vec none).2),
          (match res with
            | some r => some (vec_normalize L vec (some r)).2
            | none => none)) := by
  cases res with
  | none => simp [vec_normalize_mem, vec_normalize, forLoop, iterate, hn]
  | some r => simp [vec_normalize_mem, vec_normalize, forLoop, iterate, hn]

/-- The vector written by `vec_normalize` in the separate-output mode. -/
theorem vec_normalize_some_apply (L : Libm K) (v r : Buf K) (h : vec_norm L v ≠ 0) (x : Nat) :
    (vec_normalize L v (some r)).2 x = if x < 3 then v x * (1 / vec_norm L v) else r x := by
  simp only [vec_normalize, if_neg h, forLoop, Nat.sub_zero]
  exact iterate_fill (fun i => v i * (1 / vec_norm L v)) 3 r x

/-- A vector whose first three cells are those of `v` divided by the non-zero
norm of `v` has norm one, for a non-negative square root squaring to its
argument. -/
theorem vec_norm_of_scaled (L : Libm K) (v w : Buf K)
    (hnn : ∀ x : K, 0 ≤ L.sqrt x) (hsq : ∀ x : K, 0 ≤ x → L.sqrt x * L.sqrt x = x)
    (hn : vec_norm L v ≠ 0) (hw : ∀ i, i < 3 → w i = v i / vec_norm L v) :
    vec_norm L w = 1 := by
  have hs0 : 0 ≤ v 0 ^ 2 + v 1 ^ 2 + v 2 ^ 2 := by positivity
  have hnn' := hsq _ hs0
  rw [← vec_norm_eq] at hnn'
  have hone : L.sqrt 1 = 1 := by
    have h1 := hsq 1 zero_le_one
    have h2 := hnn 1
    nlinarith
  rw [vec_norm_eq L w, hw 0 (by decide), hw 1 (by decide), hw 2 (by decide)]
  have : (v 0 / vec_norm L v) ^ 2 + (v 1 / vec_norm L v) ^ 2 + (v 2 / vec_norm L v) ^ 2 = 1 := by
    field_simp
    linear_combination -hnn'
  rw [this, hone]

/-- C18: `vec_normalize` on a vector of norm zero returns 0 and leaves the
vector and the output as they are; on a vector of non-zero norm it returns 1,
the vector written (the output when one is given, the vector itself when not)
is `v / vec_norm v` and has norm one, and the input is as before when an output
is given. -/
theorem vec_normalize_contract (L : Libm K) (vec : Buf K) (res : Option (Buf K))
    (hnn : ∀ x : K, 0 ≤ L.sqrt x) (hsq : ∀ x : K, 0 ≤ x → L.sqrt x * L.sqrt x = x) :
    (vec_norm L vec = 0 →
      vec_normalize_mem L vec res = (0, vec, res)
      ∧ vec_normalize L vec res = (0, res.getD vec))
    ∧ (vec_norm L vec ≠ 0 →
      ∃ w, (∀ i, i < 3 → w i = vec i / vec_norm L vec)
        ∧ vec_norm L w = 1
        ∧ vec_normalize L vec res = (1, w)
        ∧ vec_normalize_mem L vec res
          = (1, (match res with
                  | some _ => vec
                  | none => w),
              (match res with
                | some _ => some w
                | none => none))) := by
  constructor
  · intro hz
    exact ⟨by simp [vec_normalize_mem, hz], by simp [vec_normalize, hz]⟩
  · intro hn
    have hw : ∀ i, i < 3 → (vec_normalize L vec res).2 i = vec i / vec_norm L vec := by
      intro i hi
      cases res with
      | none => rw [vec_normalize_none_apply L vec hn, if_pos hi]; ring
      | some r => rw [vec_normalize_some_apply L vec r hn, if_pos hi]; ring
    have h1 : (vec_normalize L vec res).1 = 1 := by
      cases res <;> simp [vec_normalize, hn]
    refine ⟨(vec_normalize L vec res).2, hw, vec_norm_of_scaled L vec _ hnn hsq hn hw, ?_, ?_⟩
    · rw [← h1]
    · rw [vec_normalize_mem_of_ne L vec res hn]
      cases res <;> rfl

/-- C18 over the reals: at `v = [0, 0, 1]` with a separate zeroed output the
call returns 1, writes a vector of norm one and leaves `v`; at `v = [0, 0, 0]`
it returns 0 and leaves both objects. -/
theorem vec_normalize_contract_witness :
    (∃ w, (∀ i, i < 3 → w i = example_mag_i i
            / vec_norm (⟨Real.sqrt, Real.cos, Real.sin⟩ : Libm ℝ) example_mag_i)
        ∧ vec_norm (⟨Real.sqrt, Real.cos, Real.sin⟩ : Libm ℝ) w = 1
        ∧ vec_normalize (⟨Real.sqrt, Real.cos, Real.sin⟩ : Libm ℝ) example_mag_i (some fresh)
          = (1, w)
        ∧ vec_normalize_mem (⟨Real.sqrt, Real.cos, Real.sin⟩ : Libm ℝ) example_mag_i
            (some fresh) = (1, example_mag_i, some w))
    ∧ vec_normalize_mem (⟨Real.sqrt, Real.cos, Real.sin⟩ : Libm ℝ) fresh (some fresh)
        = (0, fresh, some fresh) := by
  constructor
  · have hn : vec_norm (⟨Real.sqrt, Real.cos, Real.sin⟩ : Libm ℝ) example_mag_i ≠ 0 := by
      rw [vec_norm_eq]; simp [example_mag_i, store_apply, fresh]
    exact (vec_normalize_contract ⟨Real.sqrt, Real.cos, Real.sin⟩ example_mag_i (some fresh)
      Real.sqrt_nonneg (fun _ hx => Real.mul_self_sqrt hx)).2 hn
  · have hz : vec_norm (⟨Real.sqrt, Real.cos, Real.sin⟩ : Libm ℝ) fresh = 0 := by
      rw [vec_norm_eq]; simp [fresh]
    exact ((vec_normalize_contract ⟨Real.sqrt, Real.cos, Real.sin⟩ fresh (some fresh)
      Real.sqrt_nonneg (fun _ hx => Real.mul_self_sqrt hx)).1 hz).1

/-! ## Covariance propagation, symmetry -/

/-- The arrays `P` and `Q` that `eskf_compute_error` leaves, cell by cell, for a
rotation vector with a non-zero component. -/
theorem eskf_compute_error_result (L : Libm K) (omega P Q : Buf K) (dt : K)
    (hsqrt : ∀ x : K, 0 < x → L.sqrt x ≠ 0) (hne : ∃ i, i < 3 ∧ omega i * dt ≠ 0) :
    ∃ dq P1 Q1,
      eskf_compute_error L omega dt P Q = .ok (P1, Q1)
      ∧ (∀ i j, i < 6 → j < 6 → Q1 (6 * i + j) = spec_Q dt i j)
      ∧ (∀ i j, i < 6 → j < 6 →
          P1 (6 * i + j)
            = (∑ k ∈ Finset.range 6, ∑ l ∈ Finset.range 6,
                spec_F dq dt i k * P (6 * k + l) * spec_F dq dt j l)
              + spec_Q dt i j) := by
  have hne2 : ∃ i, i < 3 ∧ vec_cons_mult dt omega (some fresh) i ≠ 0 := by
    obtain ⟨i, hi, hv⟩ := hne
    exact ⟨i, hi, by rw [vec_cons_mult_some, if_pos hi]; exact hv⟩
  obtain ⟨-, hq⟩ := vec_to_quat_ok L (vec_cons_mult dt omega (some fresh)) fresh hsqrt hne2
  generalize axis_rotation_to_quat L _ _ _ = dq at hq
  have hE : eskf_compute_error L omega dt P Q
      = .ok (_mat_mat_sum
          (_mat_mat_mult (_mat_mat_mult (eskf_compute_error_F dq dt) P fresh 6 6 6)
            (_mat_transpose (eskf_compute_error_F dq dt) fresh 6 6) fresh 6 6 6)
          (eskf_compute_error_Q dt Q) P 6 6, eskf_compute_error_Q dt Q) := by
    simp only [eskf_compute_error, hq]
  refine ⟨dq, _, _, hE, ?_, ?_⟩
  · intro i j hi hj
    exact eskf_compute_error_Q_entry dt Q i j hi hj
  · intro i j hi hj
    rw [mat_mat_sum_spec, if_pos (by omega), eskf_compute_error_Q_entry dt Q i j hi hj,
      mat_mat_mult_spec, if_pos (by omega)]
    congr 1
    have h1 : (6 * i + j) / 6 = i := by omega
    have h2 : (6 * i + j) % 6 = j := by omega
    rw [h1, h2, Finset.sum_comm]
    apply Finset.sum_congr rfl
    intro l hl
    have hl6 : l < 6 := Finset.mem_range.mp hl
    rw [mat_mat_mult_spec, if_pos (by omega), mat_transpose_spec, if_pos (by omega)]
    have h3 : (i * 6 + l) / 6 = i := by omega
    have h4 : (i * 6 + l) % 6 = l := by omega
    have h5 : (l * 6 + j) / 6 = l := by omega
    have h6 : (l * 6 + j) % 6 = j := by omega
    rw [h3, h4, h5, h6, Finset.sum_mul]
    apply Finset.sum_congr rfl
    intro k hk
    have hk6 : k < 6 := Finset.mem_range.mp hk
    rw [Nat.mul_comm i 6, Nat.mul_comm k 6, eskf_compute_error_F_entry dq dt i k hi hk6,
      eskf_compute_error_F_entry dq dt j l hj hl6]

/-- The process noise of the specification is a symmetric matrix. -/
theorem spec_Q_symm (dt : K) (i j : Nat) : spec_Q dt i j = spec_Q dt j i := by
  simp only [spec_Q]
  by_cases h : i = j
  · subst h; rfl
  · rw [if_neg h, if_neg (fun h2 => h h2.symm)]

/-- C19 in exact arithmetic: for a symmetric `P` and a rotation vector
`omega * dt` with a non-zero component (the square root being non-zero on
positive arguments), `eskf_compute_error` returns and the arrays `P` and `Q` it
leaves are symmetric. -/
theorem eskf_compute_error_symmetric (L : Libm K) (omega P Q : Buf K) (dt : K)
    (hsqrt : ∀ x : K, 0 < x → L.sqrt x ≠ 0) (hne : ∃ i, i < 3 ∧ omega i * dt ≠ 0)
    (hP : ∀ i j, i < 6 → j < 6 → P (6 * i + j) = P (6 * j + i)) :
    ∃ P1 Q1,
      eskf_compute_error L omega dt P Q = .ok (P1, Q1)
      ∧ (∀ i j, i < 6 → j < 6 → P1 (6 * i + j) = P1 (6 * j + i))
      ∧ (∀ i j, i < 6 → j < 6 → Q1 (6 * i + j) = Q1 (6 * j + i)) := by
  obtain ⟨dq, P1, Q1, hE, hQ, hP1⟩ := eskf_compute_error_result L omega P Q dt hsqrt hne
  refine ⟨P1, Q1, hE, ?_, ?_⟩
  · intro i j hi hj
    rw [hP1 i j hi hj, hP1 j i hj hi, spec_Q_symm dt i j]
    congr 1
    rw [Finset.sum_comm]
    apply Finset.sum_congr rfl
    intro l hl
    apply Finset.sum_congr rfl
    intro k hk
    rw [hP k l (Finset.mem_range.mp hk) (Finset.mem_range.mp hl)]
    ring
  · intro i j hi hj
    rw [hQ i j hi hj, hQ j i hj hi, spec_Q_symm dt i j]

/-- C19 over the reals at `omega = [0, 0, 1]`, `dt = 1` and the symmetric `P`
with `P[0][0] = 10^12`, `P[0][3] = P[3][0] = P[3][3] = 1`. -/
theorem eskf_compute_error_symmetric_witness :
    ∃ P1 Q1,
      eskf_compute_error (⟨Real.sqrt, Real.cos, Real.sin⟩ : Libm ℝ) example_mag_i 1
          example_P_cross fresh = .ok (P1, Q1)
      ∧ (∀ i j, i < 6 → j < 6 → P1 (6 * i + j) = P1 (6 * j + i))
      ∧ (∀ i j, i < 6 → j < 6 → Q1 (6 * i + j) = Q1 (6 * j + i)) :=
  eskf_compute_error_symmetric ⟨Real.sqrt, Real.cos, Real.sin⟩ example_mag_i example_P_cross
    fresh 1 (fun _ hx => (Real.sqrt_pos.mpr hx).ne')
    ⟨2, by decide, by simp [example_mag_i, store_apply]⟩
    (by
      intro i j hi hj
      interval_cases i <;> interval_cases j <;> simp [example_P_cross, store_apply, fresh])

/-- The doubles that enter the run below: the constant `0.001` is
`0x1.0624dd2f1a9fcp-10`, and on doubles `sqrt(1.0) = 1.0`,
`sin(0.5) = 0x1.eaee8744b05f0p-2` and `cos(0.5) = 0x1.c1528065b7d50p-1`. -/
theorem IEEE_values_at_half :
    (0.001 : F64) = F64.dyadic 0x10624dd2f1a9fc (-62)
    ∧ IEEE.libm.sqrt 1 = 1
    ∧ IEEE.libm.sin 0.5 = F64.dyadic 0x1eaee8744b05f0 (-54)
    ∧ IEEE.libm.cos 0.5 = F64.dyadic 0x1c1528065b7d50 (-53) := by
  decide!

/-- C19 refuted as stated, on IEEE doubles, at `omega = [0, 0, 1]`, `dt = 1` and
the symmetric `P` with `P[0][0] = 10^12`, `P[0][3] = P[3][0] = P[3][3] = 1`
(the input of the witness above): `eskf_compute_error` leaves
`P[0][1] = 0x1.a76cb3430fff7p+38` (454648713411.99945...) and
`P[1][0] = 0x1.a76cb3430fff6p+38` (454648713411.99938...), one unit in the last
place apart. The products `F * P` and `(F * P) * Ft` are accumulated in doubles
(lines 318 and 447-450) and nothing makes the sum symmetric afterwards. -/
theorem eskf_compute_error_loses_symmetry_in_doubles :
    (∀ i, i < 6 → ∀ j, j < 6 →
      IEEE.example_P_cross (6 * i + j) = IEEE.example_P_cross (6 * j + i))
    ∧ IEEE.vec_cons_mult 1 IEEE.example_omega (some IEEE.fresh) 2 ≠ 0
    ∧ (IEEE.eskf_compute_error IEEE.libm IEEE.example_omega 1 IEEE.example_P_cross
        IEEE.fresh).1 (6 * 0 + 1) = F64.dyadic 0x1a76cb3430fff7 (-14)
    ∧ (IEEE.eskf_compute_error IEEE.libm IEEE.example_omega 1 IEEE.example_P_cross
        IEEE.fresh).1 (6 * 1 + 0) = F64.dyadic 0x1a76cb3430fff6 (-14)
    ∧ (IEEE.eskf_compute_error IEEE.libm IEEE.example_omega 1 IEEE.example_P_cross
        IEEE.fresh).1 (6 * 0 + 1)
      ≠ (IEEE.eskf_compute_error IEEE.libm IEEE.example_omega 1 IEEE.example_P_cross
        IEEE.fresh).1 (6 * 1 + 0) := by
  decide!

/-! ## Zero innovation -/

/-- When the reading equals the predicted field, the error state is zero. -/
theorem dx_of_zero_innovation (gain mag_sensor mag_b : Buf K)
    (h : ∀ j, j < 3 → mag_sensor j = mag_b j) (i : Nat) (hi : i < 6) :
    eskf_update_mag_dx gain mag_sensor mag_b i = 0 := by
  rw [eskf_update_mag_dx_entry _ _ _ i hi]
  apply Finset.sum_eq_zero
  intro j hj
  rw [h j (Finset.mem_range.mp hj)]
  ring

/-- The injection step on an error state whose attitude part is zero: the norm
passed to `vec_to_quat` is zero and the quotient `1.0 / rot` is a division by
zero. -/
theorem inject_of_zero (L : Libm K) (dx q wb : Buf K) (hs0 : L.sqrt 0 = 0)
    (h : ∀ i, i < 3 → dx i = 0) :
    eskf_update_mag_inject L dx q wb = .error Fault.divByZero := by
  have hn : vec_norm L (store (store (store (fresh : Buf K) 0 (dx 0)) 1 (dx 1)) 2 (dx 2)) = 0 := by
    rw [vec_norm_eq]
    simp [store_apply, h 0 (by decide), h 1 (by decide), h 2 (by decide), hs0]
  simp only [eskf_update_mag_inject, vec_to_quat_of_norm_zero L _ fresh hn]

/-- Over the reals, for `q = [0,0,0,1]`, `mag_i = [0,0,1]`, `P` zero but for
`P[1][1] = 10^12` and zeroed locals: the predicted field is `[0,0,1]` and the
gain exists. -/
theorem example_gain_exists :
    (∀ x, x < 3 →
      eskf_update_mag_mag_b (⟨Real.sqrt, Real.cos, Real.sin⟩ : Libm ℝ) example_mag_i example_q x
        = if x = 2 then 1 else 0)
    ∧ ∃ gain, eskf_update_mag_K (example_P : Buf ℝ)
        (eskf_update_mag_H
          (eskf_update_mag_mag_b ⟨Real.sqrt, Real.cos, Real.sin⟩ example_mag_i example_q)
          fresh fresh) fresh = .ok gain := by
  have hn : vec_norm (⟨Real.sqrt, Real.cos, Real.sin⟩ : Libm ℝ) example_mag_i = 1 := by
    rw [vec_norm_eq]; simp [example_mag_i, store_apply, fresh]
  have hmb : ∀ x, x < 3 →
      eskf_update_mag_mag_b (⟨Real.sqrt, Real.cos, Real.sin⟩ : Libm ℝ) example_mag_i example_q x
        = if x = 2 then 1 else 0 := by
    intro x hx
    simp only [eskf_update_mag_mag_b]
    rw [mat_vec_mult_entry _ _ _ x hx]
    rw [vec_normalize_none_apply _ _ (by rw [hn]; norm_num),
      vec_normalize_none_apply _ _ (by rw [hn]; norm_num),
      vec_normalize_none_apply _ _ (by rw [hn]; norm_num), hn]
    interval_cases x <;>
      simp [quat_to_dcm, store_apply, fresh, example_mag_i, example_q]
  refine ⟨hmb, ?_⟩
  have hHall : ∀ x, eskf_update_mag_H
      (eskf_update_mag_mag_b (⟨Real.sqrt, Real.cos, Real.sin⟩ : Libm ℝ) example_mag_i example_q)
      fresh fresh x = if x = 1 then -1 else 0 := by
    intro x
    rw [eskf_update_mag_H_apply, hmb 2 (by decide), hmb 1 (by decide)]
    by_cases h0 : x = 0
    · subst h0; simp [fresh]
    · by_cases h1 : x = 1
      · subst h1; simp
      · by_cases h2 : x = 2
        · subst h2; simp
        · simp [h0, h1, h2, fresh]
  have hH : ∀ x, 6 ≤ x → x < 18 → eskf_update_mag_H
      (eskf_update_mag_mag_b (⟨Real.sqrt, Real.cos, Real.sin⟩ : Libm ℝ) example_mag_i example_q)
      fresh fresh x = 0 := by
    intro x h6 _
    rw [hHall, if_neg (by omega)]
  set mag_b := eskf_update_mag_mag_b (⟨Real.sqrt, Real.cos, Real.sin⟩ : Libm ℝ)
    example_mag_i example_q with hmbd
  set H := eskf_update_mag_H mag_b fresh fresh with hHd
  have hPh : ∀ i, i < 6 → row0_Ph (example_P : Buf ℝ) H i
      = if i = 1 then -1000000000000 else 0 := by
    intro i hi
    simp only [row0_Ph, Finset.sum_range_succ, Finset.sum_range_zero, hHall]
    interval_cases i <;> simp [example_P, store_apply, fresh]
  have hs : row0_hPh (example_P : Buf ℝ) H = 1000000000000 := by
    simp only [row0_hPh, Finset.sum_range_succ, Finset.sum_range_zero, hHall]
    rw [hPh 1 (by decide)]
    simp
  have hdet : mat_inverse_detmat (eskf_update_mag_S (example_P : Buf ℝ) H fresh)
      = 1000000000000000001 / 1000000000000000000 := by
    rw [detmat_of_row0 _ _ _ hH, hs]
    simp only [std_rn_mag]; norm_num
  exact ⟨_, K_ok (example_P : Buf ℝ) H fresh
    (by rw [hdet, abs_of_pos (by norm_num)]; norm_num)
    (by rw [hdet, abs_of_pos (by norm_num)]; norm_num)⟩

/-- C12, evaluated on the code over the reals: `q = [0,0,0,1]`,
`mag_i = [0,0,1]`, `mag_sensor = [0,0,1] = quat_to_dcm (q) * normalize (mag_i)`,
`wb = 0`, `P` zero but for `P[1][1] = 10^12`, zeroed locals. The gain exists and
the error state `dx` is zero, so `vec_to_quat` is called on the zero vector and
forms the quotient `1.0 / rot` with `rot = 0`: the call yields no `q` in exact
arithmetic (in IEEE arithmetic every component of `q` becomes a NaN). -/
theorem eskf_update_mag_zero_innovation_divides_by_zero :
    (∀ i, i < 3 → (example_mag_i : Buf ℝ) i
      = eskf_update_mag_mag_b ⟨Real.sqrt, Real.cos, Real.sin⟩ example_mag_i example_q i)
    ∧ (∃ gain, eskf_update_mag_K (example_P : Buf ℝ)
          (eskf_update_mag_H
            (eskf_update_mag_mag_b ⟨Real.sqrt, Real.cos, Real.sin⟩ example_mag_i example_q)
            fresh fresh) fresh = .ok gain
        ∧ ∀ i, i < 6 → eskf_update_mag_dx gain example_mag_i
            (eskf_update_mag_mag_b ⟨Real.sqrt, Real.cos, Real.sin⟩ example_mag_i example_q) i
          = 0)
    ∧ eskf_update_mag (⟨Real.sqrt, Real.cos, Real.sin⟩ : Libm ℝ) example_mag_i example_mag_i
        (example_P : Buf ℝ) fresh example_q fresh fresh fresh
      = .stopped Fault.divByZero ⟨example_P, eskf_update_mag_R fresh, example_q, fresh⟩ := by
  obtain ⟨hmb, gain, hK⟩ := example_gain_exists
  have hzero : ∀ i, i < 3 → (example_mag_i : Buf ℝ) i
      = eskf_update_mag_mag_b ⟨Real.sqrt, Real.cos, Real.sin⟩ example_mag_i example_q i := by
    intro i hi
    rw [hmb i hi]
    interval_cases i <;> simp [example_mag_i, store_apply, fresh]
  have hdx := fun i hi => dx_of_zero_innovation gain (example_mag_i : Buf ℝ) _ hzero i hi
  refine ⟨hzero, ⟨gain, hK, hdx⟩, ?_⟩
  have hinj := inject_of_zero (⟨Real.sqrt, Real.cos, Real.sin⟩ : Libm ℝ)
    (eskf_update_mag_dx gain example_mag_i
      (eskf_update_mag_mag_b ⟨Real.sqrt, Real.cos, Real.sin⟩ example_mag_i example_q))
    example_q fresh Real.sqrt_zero
    (fun i hi => hdx i (by omega))
  simp only [eskf_update_mag, hK, hinj]

/-- With the identity increment `dq = [0,0,0,1]` and `dt = 1` the propagation
formula `F * P * transpose F + Q` of the specification is not `P + Q`: for the
symmetric `P` with `P[0][0] = 10^12`, `P[0][3] = P[3][0] = P[3][3] = 1` its cell
`(0, 3)` is `0`, where `P[0][3] + Q[0][3] = 1` (the block `F12 = -dt * I3`
carries the bias covariance into the attitude rows). -/
theorem spec_F_identity_is_not_additive :
    (∑ k ∈ Finset.range 6, ∑ l ∈ Finset.range 6,
        spec_F (example_q : Buf ℚ) 1 0 k * example_P_cross (6 * k + l)
          * spec_F example_q 1 3 l) + spec_Q 1 0 3 = 0
    ∧ (example_P_cross : Buf ℚ) (6 * 0 + 3) + spec_Q 1 0 3 = 1 := by
  constructor
  · simp [Finset.sum_range_succ, spec_F, spec_Q, example_P_cross, example_q, store_apply,
      fresh, quat_to_dcm]
  · simp [spec_Q, example_P_cross, store_apply]

/-! ## Composition and the DCM convention -/

/-- C21: for all quaternions `a` and `b`, of unit norm or not, the matrix
`quat_to_dcm (quat_mult (a, b))` is `mat_mat_mult (quat_to_dcm b, quat_to_dcm a)`,
entry by entry: the DCM of a product is the product of the DCMs in reversed
order. -/
theorem quat_to_dcm_quat_mult (a b res1 res2 res3 res4 out : Buf K) (i j : Nat)
    (hi : i < 3) (hj : j < 3) :
    quat_to_dcm (quat_mult a b res1) res2 (3 * i + j)
      = mat_mat_mult (quat_to_dcm b res3) (quat_to_dcm a res4) out (3 * i + j) := by
  obtain ⟨m0, m1, m2, m3⟩ := quat_mult_cells a b res1
  obtain ⟨p0, p1, p2, p3, p4, p5, p6, p7, p8⟩ := quat_to_dcm_cells (quat_mult a b res1) res2
  obtain ⟨b0, b1, b2, b3, b4, b5, b6, b7, b8⟩ := quat_to_dcm_cells b res3
  obtain ⟨a0, a1, a2, a3, a4, a5, a6, a7, a8⟩ := quat_to_dcm_cells a res4
  rw [mat_mat_mult_entry _ _ _ i j hi hj]
  interval_cases i <;> interval_cases j <;>
    simp only [Nat.mul_zero, Nat.mul_one, Nat.add_zero, Nat.zero_add, Nat.reduceAdd,
      Nat.reduceMul, p0, p1, p2, p3, p4, p5, p6, p7, p8, m0, m1, m2, m3,
      b0, b1, b2, b3, b4, b5, b6, b7, b8, a0, a1, a2, a3, a4, a5, a6, a7, a8] <;>
    ring1

/-- C21 over the rationals at the non-unit quaternions `a = [1, 0, 1, 0]` and
`b = [1, 0, 0, 0]`, entry `(0, 2)`. -/
theorem quat_to_dcm_quat_mult_witness :
    quat_to_dcm (quat_mult (example_mag_sensor : Buf ℚ) example_mag_x fresh) fresh (3 * 0 + 2)
      = mat_mat_mult (quat_to_dcm example_mag_x fresh) (quat_to_dcm example_mag_sensor fresh)
          fresh (3 * 0 + 2) :=
  quat_to_dcm_quat_mult example_mag_sensor example_mag_x fresh fresh fresh fresh fresh 0 2
    (by decide) (by decide)

/-- The order of the factors matters: for `a = [1, 0, 1, 0]` and
`b = [1, 0, 0, 0]` entry `(0, 2)` of `quat_to_dcm (quat_mult (a, b))` is `2`, and
the product of the DCMs in the order `a`, `b` has `-2` there. -/
theorem quat_to_dcm_quat_mult_order :
    quat_to_dcm (quat_mult (example_mag_sensor : Buf ℚ) example_mag_x fresh) fresh (3 * 0 + 2)
      = 2
    ∧ mat_mat_mult (quat_to_dcm (example_mag_sensor : Buf ℚ) fresh)
        (quat_to_dcm example_mag_x fresh) fresh (3 * 0 + 2) = -2 := by
  constructor
  · simp [quat_to_dcm, quat_mult, example_mag_sensor, example_mag_x, store_apply, fresh]
  · rw [mat_mat_mult_entry _ _ _ 0 2 (by decide) (by decide)]
    simp [quat_to_dcm, example_mag_sensor, example_mag_x, store_apply, fresh]

end Claims

end SUCHAI
